import Mathlib

/-!
Shallow embedding of the Phoenix Nest service discovery implementation
(the discovery engine in `pn_discovery.c`, declared in `pn_discovery.h`):
the flat JSON codec helpers, the presence/departure message builders, the
receive-side `parse_message` dispatch, the bounded peer registry and its
operations, and the query functions. C strings are modelled as `List Char`
(the characters up to the terminating NUL); truncating copies (`strncpy`
with a bounded size) become `List.take`; C `int` becomes `Int`; functions
that report failure through a NULL pointer or a negative return value
return `Option` or carry an explicit `Int` code.
-/

namespace PnDiscovery

/-- Constant PN_MAX_ID_LEN from pn_discovery.h. -/
def PN_MAX_ID_LEN : Nat := 64

/-- Constant PN_MAX_SERVICE_LEN from pn_discovery.h. -/
def PN_MAX_SERVICE_LEN : Nat := 32

/-- Constant PN_MAX_IP_LEN from pn_discovery.h. -/
def PN_MAX_IP_LEN : Nat := 64

/-- Constant PN_MAX_CAPS_LEN from pn_discovery.h. -/
def PN_MAX_CAPS_LEN : Nat := 128

/-- Constant PN_MAX_SERVICES from pn_discovery.h: registry capacity. -/
def PN_MAX_SERVICES : Nat := 32

/-- The double-quote character, written via its code point. -/
def qc : Char := Char.ofNat 34

/-- The opening curly brace character. -/
def lbrace : Char := Char.ofNat 123

/-- The closing curly brace character. -/
def rbrace : Char := Char.ofNat 125

/-- Constant PN_MAGIC = "PNSD" from pn_discovery.c. -/
def PNSD : List Char := "PNSD".toList

/-- Structure pn_service_t from pn_discovery.h. -/
structure PnService where
  id : List Char
  service : List Char
  ip : List Char
  ctrl_port : Int
  data_port : Int
  caps : List Char
  last_seen : Nat
  active : Bool
deriving DecidableEq

/-- The all-zero pn_service_t produced by the memset in pn_discovery_init. -/
def emptyService : PnService :=
  { id := [], service := [], ip := [], ctrl_port := 0, data_port := 0
    caps := [], last_seen := 0, active := false }

/-- The registry array after initialization: PN_MAX_SERVICES zeroed slots. -/
def emptyRegistry (n : Nat) : List PnService := List.replicate n emptyService

/-- Boolean prefix test on character lists (the comparisons strstr performs
    at one candidate position). -/
def prefixOfB : List Char → List Char → Bool
  | [], _ => true
  | _ :: _, [] => false
  | a :: as, b :: bs => a == b && prefixOfB as bs

/-- Model of strstr followed by advancing past the needle: returns the
    suffix of the haystack that follows the first occurrence of `pat`,
    or none when `pat` does not occur. -/
def dropAfterFirst (pat : List Char) : List Char → Option (List Char)
  | [] => if pat = [] then some [] else none
  | c :: rest =>
    if prefixOfB pat (c :: rest) then some ((c :: rest).drop pat.length)
    else dropAfterFirst pat rest

/-- Model of strchr for the double-quote character: the span of characters
    strictly before the first double quote, or none when there is none. -/
def takeBeforeQuote : List Char → Option (List Char)
  | [] => none
  | c :: rest =>
    if c = qc then some []
    else (takeBeforeQuote rest).map (fun r => c :: r)

/-- Search pattern built by json_get_string: a quote, the key, a quote, a
    colon, a quote. -/
def strKeyPat (key : List Char) : List Char :=
  qc :: key ++ qc :: ':' :: [qc]

/-- Search pattern built by json_get_int: a quote, the key, a quote, a
    colon. -/
def intKeyPat (key : List Char) : List Char :=
  qc :: key ++ qc :: [':']

/-- Function json_get_string from pn_discovery.c: find the first
    occurrence of the pattern, take the value up to the closing quote,
    truncate it to `maxlen - 1` characters. -/
def json_get_string (json key : List Char) (maxlen : Nat) : Option (List Char) :=
  match dropAfterFirst (strKeyPat key) json with
  | none => none
  | some rest =>
    match takeBeforeQuote rest with
    | none => none
    | some s => some (s.take (maxlen - 1))

/-- Character class test used by C atoi for the leading-whitespace skip. -/
def isSpaceChar (c : Char) : Bool :=
  c = ' ' || c = '\t' || c = '\n' || c = Char.ofNat 11 || c = Char.ofNat 12 || c = '\r'

/-- Digit-accumulation loop of C atoi: consume leading decimal digits,
    folding them into the accumulator, and stop at the first non-digit. -/
def atoiNat : List Char → Nat → Nat
  | c :: rest, acc =>
    if c.isDigit then atoiNat rest (acc * 10 + (c.toNat - 48)) else acc
  | [], acc => acc

/-- Sign-and-digits phase of C atoi, after the whitespace skip. -/
def atoiSigned : List Char → Int
  | [] => 0
  | c :: rest =>
    if c = '-' then -(atoiNat rest 0 : Int)
    else if c = '+' then (atoiNat rest 0 : Int)
    else (atoiNat (c :: rest) 0 : Int)

/-- Model of C atoi: skip whitespace, read an optional sign, then read
    leading decimal digits (zero digits parse as 0). -/
def atoi (l : List Char) : Int :=
  atoiSigned (l.dropWhile isSpaceChar)

/-- Function json_get_int from pn_discovery.c: find the first occurrence
    of the pattern and atoi what follows; 0 when the key is absent. -/
def json_get_int (json key : List Char) : Int :=
  match dropAfterFirst (intKeyPat key) json with
  | none => 0
  | some rest => atoi rest

/-- Digit characters of a natural number accumulated
    most-significant-first, as the decimal rendering loop of snprintf
    produces them for a nonzero argument; the structural fuel argument
    (always instantiated at a value at least the number itself) only
    makes the division-by-ten recursion structurally terminating. -/
def natDigitsAux (fuel n : Nat) (acc : List Char) : List Char :=
  match fuel with
  | 0 => acc
  | fuel + 1 =>
    if n = 0 then acc
    else natDigitsAux fuel (n / 10) (Nat.digitChar (n % 10) :: acc)

/-- Decimal rendering of a natural number, as %u would produce. -/
def natDigits (n : Nat) : List Char :=
  if n = 0 then ['0'] else natDigitsAux n n []

/-- Decimal rendering of an int, as the %d conversion of snprintf
    produces. -/
def intChars (i : Int) : List Char :=
  if i < 0 then '-' :: natDigits i.natAbs else natDigits i.natAbs

/-- Function json_add_string from pn_discovery.c: append the fragment
    `,"key":"val"` (the comma only when requested); the append succeeds
    only when the whole fragment fits strictly below the remaining
    capacity (the snprintf length n is the fragment length, always
    positive here), otherwise the call reports failure. -/
def json_add_string (buf : List Char) (maxlen : Nat) (key val : List Char)
    (comma : Bool) : Option (List Char) :=
  let part := (if comma then [','] else []) ++ qc :: key ++ qc :: ':' :: qc :: (val ++ [qc])
  if buf.length + part.length < maxlen then some (buf ++ part) else none

/-- Function json_add_int from pn_discovery.c: append `,"key":val` with
    val rendered by %d, under the same capacity rule. -/
def json_add_int (buf : List Char) (maxlen : Nat) (key : List Char) (val : Int)
    (comma : Bool) : Option (List Char) :=
  let part := (if comma then [','] else []) ++ qc :: key ++ qc :: ':' :: intChars val
  if buf.length + part.length < maxlen then some (buf ++ part) else none

/-- Function build_helo_message from pn_discovery.c: an opening brace,
    then the fields m, v, cmd, id, svc, ip, port, data (only when the
    data port is positive), caps (only when non-empty) and ts, then the
    closing brace; a capacity failure at any step aborts the whole
    encode. -/
def build_helo_message (self : PnService) (local_ip : List Char) (now : Int)
    (maxlen : Nat) : Option (List Char) :=
  match json_add_string [lbrace] maxlen ("m".toList) PNSD false with
  | none => none
  | some b1 =>
  match json_add_int b1 maxlen ("v".toList) 1 true with
  | none => none
  | some b2 =>
  match json_add_string b2 maxlen ("cmd".toList) ("helo".toList) true with
  | none => none
  | some b3 =>
  match json_add_string b3 maxlen ("id".toList) self.id true with
  | none => none
  | some b4 =>
  match json_add_string b4 maxlen ("svc".toList) self.service true with
  | none => none
  | some b5 =>
  match json_add_string b5 maxlen ("ip".toList) local_ip true with
  | none => none
  | some b6 =>
  match json_add_int b6 maxlen ("port".toList) self.ctrl_port true with
  | none => none
  | some b7 =>
  match (if 0 < self.data_port then
           json_add_int b7 maxlen ("data".toList) self.data_port true
         else some b7) with
  | none => none
  | some b8 =>
  match (if self.caps ≠ [] then
           json_add_string b8 maxlen ("caps".toList) self.caps true
         else some b8) with
  | none => none
  | some b9 =>
  match json_add_int b9 maxlen ("ts".toList) now true with
  | none => none
  | some b10 =>
  if b10.length + 1 < maxlen then some (b10 ++ [rbrace]) else none

/-- Function build_bye_message from pn_discovery.c: the fields m, v,
    cmd = bye, id and ts between braces, under the same capacity rule. -/
def build_bye_message (self : PnService) (now : Int) (maxlen : Nat) :
    Option (List Char) :=
  match json_add_string [lbrace] maxlen ("m".toList) PNSD false with
  | none => none
  | some b1 =>
  match json_add_int b1 maxlen ("v".toList) 1 true with
  | none => none
  | some b2 =>
  match json_add_string b2 maxlen ("cmd".toList) ("bye".toList) true with
  | none => none
  | some b3 =>
  match json_add_string b3 maxlen ("id".toList) self.id true with
  | none => none
  | some b4 =>
  match json_add_int b4 maxlen ("ts".toList) now true with
  | none => none
  | some b5 =>
  if b5.length + 1 < maxlen then some (b5 ++ [rbrace]) else none

/-- Byte layout of the tail of a successful helo encode from the ts
    field on; together with the wire* definitions below this spells out,
    segment by segment, the exact list build_helo_message produces, in
    the right-nested form used to reason about decoding. -/
def wireTs (now : Int) : List Char :=
  qc :: ("ts".toList ++ qc :: ':' :: (intChars now ++ [rbrace]))

/-- Tail of the helo wire from the optional caps field on. -/
def wireCaps (caps : List Char) (now : Int) : List Char :=
  if caps = [] then wireTs now
  else qc :: ("caps".toList ++ qc :: ':' :: qc :: (caps ++ qc :: ',' :: wireTs now))

/-- Tail of the helo wire from the optional data field on. -/
def wireData (dport : Int) (caps : List Char) (now : Int) : List Char :=
  if 0 < dport then
    qc :: ("data".toList ++ qc :: ':' :: (intChars dport ++ ',' :: wireCaps caps now))
  else wireCaps caps now

/-- Tail of the helo wire from the port field on. -/
def wirePort (self : PnService) (now : Int) : List Char :=
  qc :: ("port".toList ++ qc :: ':' ::
    (intChars self.ctrl_port ++ ',' :: wireData self.data_port self.caps now))

/-- Tail of the helo wire from the ip field on. -/
def wireIp (self : PnService) (local_ip : List Char) (now : Int) : List Char :=
  qc :: ("ip".toList ++ qc :: ':' :: qc :: (local_ip ++ qc :: ',' :: wirePort self now))

/-- Tail of the helo wire from the svc field on. -/
def wireSvc (self : PnService) (local_ip : List Char) (now : Int) : List Char :=
  qc :: ("svc".toList ++ qc :: ':' :: qc ::
    (self.service ++ qc :: ',' :: wireIp self local_ip now))

/-- Tail of the helo wire from the id field on. -/
def wireId (self : PnService) (local_ip : List Char) (now : Int) : List Char :=
  qc :: ("id".toList ++ qc :: ':' :: qc :: (self.id ++ qc :: ',' :: wireSvc self local_ip now))

/-- Tail of the helo wire from the cmd field on. -/
def wireCmd (self : PnService) (local_ip : List Char) (now : Int) : List Char :=
  qc :: ("cmd".toList ++ qc :: ':' :: qc ::
    ("helo".toList ++ qc :: ',' :: wireId self local_ip now))

/-- Tail of the helo wire from the v field on. -/
def wireV (self : PnService) (local_ip : List Char) (now : Int) : List Char :=
  qc :: ("v".toList ++ qc :: ':' :: (intChars 1 ++ ',' :: wireCmd self local_ip now))

/-- The whole helo wire a successful build_helo_message emits. -/
def heloWire (self : PnService) (local_ip : List Char) (now : Int) : List Char :=
  lbrace :: qc :: ("m".toList ++ qc :: ':' :: qc ::
    (PNSD ++ qc :: ',' :: wireV self local_ip now))

/-- Record committed to a registry slot by the helo branch of
    parse_message: each strncpy bounds its field to the destination
    capacity minus one, the timestamp is refreshed and the slot is
    activated. -/
def mkRec (id svc ip : List Char) (port dport : Int) (caps : List Char)
    (now : Nat) : PnService :=
  { id := id.take (PN_MAX_ID_LEN - 1)
    service := svc.take (PN_MAX_SERVICE_LEN - 1)
    ip := ip.take (PN_MAX_IP_LEN - 1)
    ctrl_port := port
    data_port := dport
    caps := caps.take (PN_MAX_CAPS_LEN - 1)
    last_seen := now
    active := true }

/-- Linear scan of the registry array that overwrites the first slot
    satisfying `p` with `v`; none when no slot satisfies `p`. -/
def setFirst (p : PnService → Bool) (v : PnService) : List PnService → Option (List PnService)
  | [] => none
  | s :: rest =>
    if p s then some (v :: rest)
    else (setFirst p v rest).map (fun r => s :: r)

/-- Registry update of the helo branch of parse_message: scan for an
    active record with the same id and overwrite it (not new); otherwise
    scan for an inactive slot and populate it (new); when neither scan
    finds a slot the update is dropped but is_new stays true. -/
def upsert (r : List PnService) (id : List Char) (v : PnService) :
    List PnService × Bool :=
  match setFirst (fun s => s.active && s.id == id) v r with
  | some r2 => (r2, false)
  | none =>
    match setFirst (fun s => !s.active) v r with
    | some r2 => (r2, true)
    | none => (r, true)

/-- Registry scan of the bye branch of parse_message: mark the first
    active record with the given id inactive and capture its service, ip
    and control port (each copy bounded like the strncpy into the local
    buffers); the captured triple is none when no record matches. -/
def removeById : List PnService → List Char → List PnService × Option (List Char × List Char × Int)
  | [], _ => ([], none)
  | s :: rest, id =>
    if s.active && s.id == id then
      ({ s with active := false } :: rest,
       some (s.service.take (PN_MAX_SERVICE_LEN - 1), s.ip.take (PN_MAX_IP_LEN - 1), s.ctrl_port))
    else
      let res := removeById rest id
      (s :: res.1, res.2)

/-- Callback invocation recorded by the listener: the arguments
    parse_message passes to the registered pn_service_cb. -/
structure CbEvent where
  id : List Char
  service : List Char
  ip : List Char
  ctrl_port : Int
  data_port : Int
  caps : List Char
  depart : Bool
deriving DecidableEq

/-- Portion of the global g_discovery state read and written by
    parse_message: the announcing flag and own descriptor (for
    self-suppression), the registry array, and whether a callback is
    registered. -/
structure DiscoveryState where
  announcing : Bool
  my_service : PnService
  services : List PnService
  hasCallback : Bool
deriving DecidableEq

/-- Result of one parse_message call: the updated state, the C return
    value, and the list of callback invocations it performed (empty or a
    single event). -/
structure ParseResult where
  state : DiscoveryState
  ret : Int
  events : List CbEvent
deriving DecidableEq

/-- Function parse_message from pn_discovery.c. `junk` models the
    contents of the uninitialized stack buffer `caps` that the helo
    branch uses unchanged when the caps key is absent from the message. -/
def parse_message (st : DiscoveryState) (buf sender_ip : List Char)
    (now : Nat) (junk : List Char) : ParseResult :=
  match json_get_string buf ("m".toList) 8 with
  | none => ⟨st, -1, []⟩
  | some magic =>
    if magic ≠ PNSD then ⟨st, -1, []⟩ else
    match json_get_string buf ("cmd".toList) 16 with
    | none => ⟨st, -1, []⟩
    | some cmd =>
      match json_get_string buf ("id".toList) PN_MAX_ID_LEN with
      | none => ⟨st, -1, []⟩
      | some id =>
        if st.announcing = true ∧ id = st.my_service.id then ⟨st, 0, []⟩ else
        if cmd = "helo".toList then
          match json_get_string buf ("svc".toList) PN_MAX_SERVICE_LEN with
          | none => ⟨st, -1, []⟩
          | some svc =>
            let ip := match json_get_string buf ("ip".toList) PN_MAX_IP_LEN with
              | some s => s
              | none => sender_ip.take (PN_MAX_IP_LEN - 1)
            let port := json_get_int buf ("port".toList)
            let dport := json_get_int buf ("data".toList)
            let caps := match json_get_string buf ("caps".toList) PN_MAX_CAPS_LEN with
              | some s => s
              | none => junk
            let res := upsert st.services id (mkRec id svc ip port dport caps now)
            ⟨{ st with services := res.1 }, 0,
              if res.2 && st.hasCallback then
                [⟨id, svc, ip, port, dport, caps, false⟩] else []⟩
        else if cmd = "bye".toList then
          let res := removeById st.services id
          ⟨{ st with services := res.1 }, 0,
            match res.2 with
            | some info =>
              if st.hasCallback && decide (info.1 ≠ []) then
                [⟨id, info.1, info.2.1, info.2.2, 0, [], true⟩] else []
            | none => []⟩
        else ⟨st, 0, []⟩

/-- Function pn_get_services from pn_discovery.c: copy active records in
    slot order while the output capacity is not exhausted. -/
def pn_get_services : List PnService → Nat → List PnService
  | _, 0 => []
  | [], _ + 1 => []
  | s :: rest, m + 1 =>
    if s.active then s :: pn_get_services rest m
    else pn_get_services rest (m + 1)

/-- Function pn_get_service_count from pn_discovery.c: the number of
    active records. -/
def pn_get_service_count (r : List PnService) : Nat :=
  (r.filter (fun s => s.active)).length

/-- Parsed field bundle of one presence message, as the helo branch of
    parse_message passes it to the registry update: service-type, ip,
    ports, capabilities, and the arrival time stored into last_seen. -/
structure HeloFields where
  svc : List Char
  ip : List Char
  port : Int
  dport : Int
  caps : List Char
  now : Nat
deriving DecidableEq

/-- Slot contents the helo branch stores for identity `id` and message
    fields `f`. -/
def heloRec (id : List Char) (f : HeloFields) : PnService :=
  mkRec id f.svc f.ip f.port f.dport f.caps f.now

/-- Registry evolution under a sequence of presence messages that all
    carry one fixed identity (already past self-suppression): each
    message runs the helo-branch upsert of parse_message. -/
def processSeq (r : List PnService) (id : List Char) : List HeloFields → List PnService
  | [] => r
  | f :: rest => processSeq (upsert r id (heloRec id f)).1 id rest

/-- Active records carrying a given identity, in slot order. -/
def filterId (r : List PnService) (i : List Char) : List PnService :=
  r.filter (fun s => s.active && s.id == i)

/-- Registry invariant: no identity is carried by two active records. -/
def atMostOnePerId (r : List PnService) : Prop :=
  ∀ i : List Char, (filterId r i).length ≤ 1

/-! ## Registry scan lemmas -/

/-- The bye-branch scan leaves the registry unchanged and captures
    nothing when no active record carries the requested id. -/
theorem removeById_no_match (r : List PnService) (id : List Char)
    (h : ∀ s ∈ r, ¬(s.active = true ∧ s.id = id)) :
    removeById r id = (r, none) := by
  induction r with
  | nil => rfl
  | cons a rest ih =>
    have ha : ¬(a.active = true ∧ a.id = id) := h a (by simp)
    have hcond : (a.active && a.id == id) = false := by
      by_cases h1 : a.active = true
      · have h2 : ¬(a.id = id) := fun hc => ha ⟨h1, hc⟩
        simp [h1, h2]
      · rw [Bool.not_eq_true] at h1
        simp [h1]
    have hrest : ∀ s ∈ rest, ¬(s.active = true ∧ s.id = id) :=
      fun s hs => h s (by simp [hs])
    simp [removeById, hcond, ih hrest]

/-- Scan predicate of the active-record-with-id loops, evaluated to false
    from the propositional negation. -/
theorem scan_cond_false (a : PnService) (id : List Char)
    (h : ¬(a.active = true ∧ a.id = id)) :
    (a.active && a.id == id) = false := by
  by_cases h1 : a.active = true
  · have h2 : ¬(a.id = id) := fun hc => h ⟨h1, hc⟩
    simp [h1, h2]
  · rw [Bool.not_eq_true] at h1
    simp [h1]

/-- A scan that overwrites the first slot satisfying p finds nothing when
    no slot satisfies p. -/
theorem setFirst_eq_none (p : PnService → Bool) (v : PnService) (l : List PnService)
    (h : ∀ x ∈ l, p x = false) : setFirst p v l = none := by
  induction l with
  | nil => rfl
  | cons a rest ih =>
    simp [setFirst, h a (by simp), ih (fun x hx => h x (by simp [hx]))]

/-- The bye-branch scan on a registry decomposed around the first active
    record carrying the id: that record is marked inactive, the earlier
    slots and the later slots are untouched, and its service, ip and
    control port are captured. -/
theorem removeById_found (u v : List PnService) (rec : PnService) (id : List Char)
    (hu : ∀ s ∈ u, ¬(s.active = true ∧ s.id = id))
    (ha : rec.active = true) (hid : rec.id = id) :
    removeById (u ++ rec :: v) id =
      (u ++ { rec with active := false } :: v,
       some (rec.service.take (PN_MAX_SERVICE_LEN - 1),
             rec.ip.take (PN_MAX_IP_LEN - 1), rec.ctrl_port)) := by
  induction u with
  | nil => simp [removeById, ha, hid]
  | cons a rest ih =>
    have hcond := scan_cond_false a id (hu a (by simp))
    simp [removeById, hcond, ih (fun s hs => hu s (by simp [hs]))]

/-! ## Claim theorems: queries and rejection paths -/

/-- C9: for every registry state and every maxCount, pn_get_services
    returns at most maxCount entries, the entries appear in slot order
    (the result is a sublist of the registry array), and every returned
    entry is an active record of the registry. -/
theorem get_services_bounded_active_ordered (r : List PnService) (m : Nat) :
    (pn_get_services r m).length ≤ m ∧
    List.Sublist (pn_get_services r m) r ∧
    ∀ s ∈ pn_get_services r m, s.active = true ∧ s ∈ r := by
  induction r generalizing m with
  | nil =>
    cases m <;> simp [pn_get_services]
  | cons a rest ih =>
    cases m with
    | zero => simp [pn_get_services]
    | succ k =>
      by_cases ha : a.active = true
      · obtain ⟨h1, h2, h3⟩ := ih k
        refine ⟨?_, ?_, ?_⟩
        · simpa [pn_get_services, ha] using Nat.succ_le_succ h1
        · simpa [pn_get_services, ha] using List.Sublist.cons₂ a h2
        · intro s hs
          rw [pn_get_services] at hs
          simp only [ha, if_true] at hs
          rcases List.mem_cons.mp hs with rfl | hs'
          · exact ⟨ha, by simp⟩
          · exact ⟨(h3 s hs').1, by simp [(h3 s hs').2]⟩
      · obtain ⟨h1, h2, h3⟩ := ih (k + 1)
        refine ⟨?_, ?_, ?_⟩
        · simpa [pn_get_services, ha] using h1
        · simpa [pn_get_services, ha] using List.Sublist.cons a h2
        · intro s hs
          rw [pn_get_services] at hs
          simp only [ha, if_false] at hs
          exact ⟨(h3 s hs).1, by simp [(h3 s hs).2]⟩

/-- C5: a received message whose protocol tag key is absent, or whose
    extracted tag value differs from the constant PNSD, is rejected:
    parse_message returns -1, the whole state (hence the registry) is
    unchanged, and no callback is invoked. -/
theorem bad_magic_rejected (st : DiscoveryState) (buf sender_ip : List Char)
    (now : Nat) (junk : List Char)
    (h : json_get_string buf ("m".toList) 8 = none ∨
      ∃ v, json_get_string buf ("m".toList) 8 = some v ∧ v ≠ PNSD) :
    parse_message st buf sender_ip now junk = ⟨st, -1, []⟩ := by
  rcases h with h | ⟨v, hv, hne⟩
  · unfold parse_message
    rw [h]
  · unfold parse_message
    rw [hv]
    simp [hne]

/-- Witness for bad_magic_rejected: a concrete foreign-tag message. -/
theorem bad_magic_rejected_witness :
    (json_get_string ("\x7b\"m\":\"XXXX\",\"cmd\":\"helo\",\"id\":\"A1\"\x7d".toList)
        ("m".toList) 8 = some ("XXXX".toList) ∧ "XXXX".toList ≠ PNSD) ∧
    parse_message ⟨false, emptyService, emptyRegistry 2, true⟩
      ("\x7b\"m\":\"XXXX\",\"cmd\":\"helo\",\"id\":\"A1\"\x7d".toList) [] 0 [] =
      ⟨⟨false, emptyService, emptyRegistry 2, true⟩, -1, []⟩ :=
  ⟨⟨by decide, by decide⟩,
    bad_magic_rejected _ _ _ _ _ (Or.inr ⟨"XXXX".toList, by decide, by decide⟩)⟩

/-- C6: a received message whose extracted identity equals the local
    descriptor's identity while the instance is announcing is discarded
    before the command dispatch: parse_message returns 0, the state is
    unchanged, and no callback is invoked, whatever the command,
    service-type, port and capability content of the message. -/
theorem self_suppressed_noop (st : DiscoveryState) (buf sender_ip : List Char)
    (now : Nat) (junk : List Char) (c : List Char)
    (hm : json_get_string buf ("m".toList) 8 = some PNSD)
    (hc : json_get_string buf ("cmd".toList) 16 = some c)
    (hid : json_get_string buf ("id".toList) PN_MAX_ID_LEN = some st.my_service.id)
    (ha : st.announcing = true) :
    parse_message st buf sender_ip now junk = ⟨st, 0, []⟩ := by
  unfold parse_message
  rw [hm, hc, hid]
  simp [ha]

/-- Witness for self_suppressed_noop: a concrete announcing state
    receiving its own helo. -/
theorem self_suppressed_noop_witness :
    (json_get_string ("\x7b\"m\":\"PNSD\",\"cmd\":\"helo\",\"id\":\"A1\",\"svc\":\"s\"\x7d".toList)
        ("m".toList) 8 = some PNSD) ∧
    parse_message
      ⟨true, { emptyService with id := "A1".toList }, emptyRegistry 2, true⟩
      ("\x7b\"m\":\"PNSD\",\"cmd\":\"helo\",\"id\":\"A1\",\"svc\":\"s\"\x7d".toList) [] 0 [] =
      ⟨⟨true, { emptyService with id := "A1".toList }, emptyRegistry 2, true⟩, 0, []⟩ :=
  ⟨by decide,
    self_suppressed_noop _ _ _ _ _ ("helo".toList) (by decide) (by decide) (by decide) rfl⟩

/-- C8: a departure message whose identity matches no active registry
    record changes nothing: parse_message returns 0, every registry
    record is left unchanged, and no callback is invoked. -/
theorem bye_unknown_noop (st : DiscoveryState) (buf sender_ip : List Char)
    (now : Nat) (junk : List Char) (id : List Char)
    (hm : json_get_string buf ("m".toList) 8 = some PNSD)
    (hc : json_get_string buf ("cmd".toList) 16 = some ("bye".toList))
    (hid : json_get_string buf ("id".toList) PN_MAX_ID_LEN = some id)
    (hno : ∀ s ∈ st.services, ¬(s.active = true ∧ s.id = id)) :
    parse_message st buf sender_ip now junk = ⟨st, 0, []⟩ := by
  unfold parse_message
  rw [hm, hc, hid]
  by_cases hs : st.announcing = true ∧ id = st.my_service.id
  · simp [hs]
  · have hnh : ¬("bye".toList = "helo".toList) := by decide
    simp [hs, hnh, removeById_no_match st.services id hno]

/-- Witness for bye_unknown_noop: a concrete registry holding only an
    unrelated peer receives a bye for an unknown identity. -/
theorem bye_unknown_noop_witness :
    (∀ s ∈ ({ emptyService with id := "B2".toList, active := true } :: emptyRegistry 1),
        ¬(s.active = true ∧ s.id = "A1".toList)) ∧
    parse_message
      ⟨false, emptyService, { emptyService with id := "B2".toList, active := true } :: emptyRegistry 1, true⟩
      ("\x7b\"m\":\"PNSD\",\"cmd\":\"bye\",\"id\":\"A1\"\x7d".toList) [] 0 [] =
      ⟨⟨false, emptyService, { emptyService with id := "B2".toList, active := true } :: emptyRegistry 1, true⟩, 0, []⟩ :=
  ⟨by decide,
    bye_unknown_noop _ _ _ _ _ ("A1".toList) (by decide) (by decide) (by decide) (by decide)⟩

/-! ## Claim C1: presence message at registry capacity -/

/-- C1 counterexample: with all 32 slots active and a presence message
    for a fresh identity, the update is dropped, the count stays 32 and
    no error is raised — but the user callback IS invoked, contradicting
    the claim that it is not. -/
theorem registry_full_counterexample :
    (∀ s ∈ List.replicate 32 { emptyService with id := "X".toList, active := true },
        s.active = true ∧ s.id ≠ "Y".toList) ∧
    (parse_message
        ⟨false, emptyService,
          List.replicate 32 { emptyService with id := "X".toList, active := true }, true⟩
        ("\x7b\"m\":\"PNSD\",\"cmd\":\"helo\",\"id\":\"Y\",\"svc\":\"s\",\"ip\":\"9\",\"port\":1\x7d".toList)
        [] 0 []).state.services =
      List.replicate 32 { emptyService with id := "X".toList, active := true } ∧
    pn_get_service_count
      (parse_message
        ⟨false, emptyService,
          List.replicate 32 { emptyService with id := "X".toList, active := true }, true⟩
        ("\x7b\"m\":\"PNSD\",\"cmd\":\"helo\",\"id\":\"Y\",\"svc\":\"s\",\"ip\":\"9\",\"port\":1\x7d".toList)
        [] 0 []).state.services = 32 ∧
    (parse_message
        ⟨false, emptyService,
          List.replicate 32 { emptyService with id := "X".toList, active := true }, true⟩
        ("\x7b\"m\":\"PNSD\",\"cmd\":\"helo\",\"id\":\"Y\",\"svc\":\"s\",\"ip\":\"9\",\"port\":1\x7d".toList)
        [] 0 []).ret = 0 ∧
    (parse_message
        ⟨false, emptyService,
          List.replicate 32 { emptyService with id := "X".toList, active := true }, true⟩
        ("\x7b\"m\":\"PNSD\",\"cmd\":\"helo\",\"id\":\"Y\",\"svc\":\"s\",\"ip\":\"9\",\"port\":1\x7d".toList)
        [] 0 []).events ≠ [] := by
  decide

/-- C1 amended: a presence message whose identity has no active record
    while every registry slot is active is dropped — the state and the
    active count are unchanged and parse_message returns 0 — but since
    is_new is computed before the free-slot scan, the user callback (when
    registered) is still invoked once with the message's fields and a
    departure-flag of false. -/
theorem registry_full_drops_but_notifies (st : DiscoveryState)
    (buf sender_ip : List Char) (now : Nat) (junk : List Char) (id svc : List Char)
    (hm : json_get_string buf ("m".toList) 8 = some PNSD)
    (hc : json_get_string buf ("cmd".toList) 16 = some ("helo".toList))
    (hid : json_get_string buf ("id".toList) PN_MAX_ID_LEN = some id)
    (hns : ¬(st.announcing = true ∧ id = st.my_service.id))
    (hsvc : json_get_string buf ("svc".toList) PN_MAX_SERVICE_LEN = some svc)
    (hfull : ∀ s ∈ st.services, s.active = true)
    (hno : ∀ s ∈ st.services, s.id ≠ id) :
    (parse_message st buf sender_ip now junk).state = st ∧
    (parse_message st buf sender_ip now junk).ret = 0 ∧
    pn_get_service_count (parse_message st buf sender_ip now junk).state.services =
      pn_get_service_count st.services ∧
    (st.hasCallback = true →
      ∃ e, (parse_message st buf sender_ip now junk).events = [e] ∧
        e.depart = false ∧ e.id = id ∧ e.service = svc) := by
  have hup : ∀ w, upsert st.services id w = (st.services, true) := by
    intro w
    have hA : setFirst (fun s => s.active && s.id == id) w st.services = none :=
      setFirst_eq_none _ _ _ (fun x hx => by simp [hno x hx])
    have hB : setFirst (fun s => !s.active) w st.services = none :=
      setFirst_eq_none _ _ _ (fun x hx => by simp [hfull x hx])
    simp [upsert, hA, hB]
  unfold parse_message
  rw [hm, hc, hid, hsvc]
  simp [hns, hup]
  intro hcb
  simp [hcb]

/-- Witness for registry_full_drops_but_notifies: a two-slot variant of
    the full-registry scenario, checked concretely. -/
theorem registry_full_drops_but_notifies_witness :
    (∀ s ∈ [{ emptyService with id := "X".toList, active := true },
            { emptyService with id := "Z".toList, active := true }], s.active = true) ∧
    (parse_message
        ⟨false, emptyService,
          [{ emptyService with id := "X".toList, active := true },
           { emptyService with id := "Z".toList, active := true }], true⟩
        ("\x7b\"m\":\"PNSD\",\"cmd\":\"helo\",\"id\":\"Y\",\"svc\":\"s\",\"ip\":\"9\",\"port\":1\x7d".toList)
        [] 0 []).state =
      ⟨false, emptyService,
        [{ emptyService with id := "X".toList, active := true },
         { emptyService with id := "Z".toList, active := true }], true⟩ :=
  ⟨by decide,
    (registry_full_drops_but_notifies _ _ _ _ _ ("Y".toList) ("s".toList)
      (by decide) (by decide) (by decide) (by decide) (by decide)
      (by decide) (by decide)).1⟩

/-! ## Claim C2: departure message for a known peer -/

/-- C2 counterexample: a known peer with last-known data port 7 and
    capabilities "c" departs; the callback receives a data port of 0 and
    empty capabilities, not the last-known values the claim promises. -/
theorem bye_constant_fields_counterexample :
    (parse_message
        ⟨false, emptyService,
          [{ id := "A".toList, service := "s".toList, ip := "i".toList,
             ctrl_port := 1, data_port := 7, caps := "c".toList,
             last_seen := 0, active := true }], true⟩
        ("\x7b\"m\":\"PNSD\",\"cmd\":\"bye\",\"id\":\"A\"\x7d".toList) [] 0 []).events =
      [⟨"A".toList, "s".toList, "i".toList, 1, 0, [], true⟩] ∧
    ((0 : Int) ≠ 7 ∧ ([] : List Char) ≠ "c".toList) := by
  decide

/-- C2 amended: a departure message whose identity matches an active
    record marks the first such record inactive and, when a callback is
    registered and the stored service-type is non-empty, invokes it once
    with the peer's identity, last-known service-type, ip and control
    port, a data port of 0, an empty capabilities string (constants, not
    the stored values) and a departure-flag of true. -/
theorem bye_known_marks_inactive_and_notifies (st : DiscoveryState)
    (buf sender_ip : List Char) (now : Nat) (junk : List Char) (id : List Char)
    (u v : List PnService) (rec : PnService)
    (hm : json_get_string buf ("m".toList) 8 = some PNSD)
    (hc : json_get_string buf ("cmd".toList) 16 = some ("bye".toList))
    (hid : json_get_string buf ("id".toList) PN_MAX_ID_LEN = some id)
    (hns : ¬(st.announcing = true ∧ id = st.my_service.id))
    (hsvcs : st.services = u ++ rec :: v)
    (hu : ∀ s ∈ u, ¬(s.active = true ∧ s.id = id))
    (hra : rec.active = true) (hrid : rec.id = id)
    (hcb : st.hasCallback = true)
    (hsne : rec.service.take (PN_MAX_SERVICE_LEN - 1) ≠ []) :
    parse_message st buf sender_ip now junk =
      ⟨{ st with services := u ++ { rec with active := false } :: v }, 0,
        [⟨id, rec.service.take (PN_MAX_SERVICE_LEN - 1),
          rec.ip.take (PN_MAX_IP_LEN - 1), rec.ctrl_port, 0, [], true⟩]⟩ := by
  unfold parse_message
  rw [hm, hc, hid]
  have hnh : ¬("bye".toList = "helo".toList) := by decide
  rw [hsvcs]
  simp [hns, hnh, removeById_found u v rec id hu hra hrid, hcb, hsne]

/-- Witness for bye_known_marks_inactive_and_notifies: a concrete
    one-record registry receives a bye for that record. -/
theorem bye_known_marks_inactive_and_notifies_witness :
    ({ id := "A".toList, service := "s".toList, ip := "i".toList,
       ctrl_port := 1, data_port := 7, caps := "c".toList,
       last_seen := 0, active := true } : PnService).active = true ∧
    parse_message
      ⟨false, emptyService,
        [{ id := "A".toList, service := "s".toList, ip := "i".toList,
           ctrl_port := 1, data_port := 7, caps := "c".toList,
           last_seen := 0, active := true }], true⟩
      ("\x7b\"m\":\"PNSD\",\"cmd\":\"bye\",\"id\":\"A\"\x7d".toList) [] 5 [] =
      ⟨⟨false, emptyService,
        [{ id := "A".toList, service := "s".toList, ip := "i".toList,
           ctrl_port := 1, data_port := 7, caps := "c".toList,
           last_seen := 0, active := false }], true⟩, 0,
        [⟨"A".toList, "s".toList, "i".toList, 1, 0, [], true⟩]⟩ :=
  ⟨rfl,
    bye_known_marks_inactive_and_notifies _ _ _ _ _ ("A".toList) [] []
      ({ id := "A".toList, service := "s".toList, ip := "i".toList,
         ctrl_port := 1, data_port := 7, caps := "c".toList,
         last_seen := 0, active := true })
      (by decide) (by decide) (by decide) (by decide) rfl
      (by simp) rfl rfl rfl (by decide)⟩

/-! ## Claim C10: presence message lacking the service-type key -/

/-- C10 counterexample: a presence message with valid tag, command and
    identity but no svc key is NOT rejected when the identity matches the
    local announcing identity — self-suppression runs first and
    parse_message returns 0, not an error. -/
theorem missing_svc_self_counterexample :
    json_get_string ("\x7b\"m\":\"PNSD\",\"cmd\":\"helo\",\"id\":\"A\"\x7d".toList)
      ("svc".toList) PN_MAX_SERVICE_LEN = none ∧
    json_get_string ("\x7b\"m\":\"PNSD\",\"cmd\":\"helo\",\"id\":\"A\"\x7d".toList)
      ("m".toList) 8 = some PNSD ∧
    json_get_string ("\x7b\"m\":\"PNSD\",\"cmd\":\"helo\",\"id\":\"A\"\x7d".toList)
      ("cmd".toList) 16 = some ("helo".toList) ∧
    json_get_string ("\x7b\"m\":\"PNSD\",\"cmd\":\"helo\",\"id\":\"A\"\x7d".toList)
      ("id".toList) PN_MAX_ID_LEN = some ("A".toList) ∧
    (parse_message
        ⟨true, { emptyService with id := "A".toList }, emptyRegistry 2, true⟩
        ("\x7b\"m\":\"PNSD\",\"cmd\":\"helo\",\"id\":\"A\"\x7d".toList) [] 0 []).ret = 0 := by
  decide

/-- C10 amended: a presence message with valid tag, command and identity
    but no svc key, whose identity is not self-suppressed, is rejected
    before any registry access: parse_message returns -1, the state is
    unchanged and no callback is invoked. -/
theorem missing_svc_rejected (st : DiscoveryState) (buf sender_ip : List Char)
    (now : Nat) (junk : List Char) (id : List Char)
    (hm : json_get_string buf ("m".toList) 8 = some PNSD)
    (hc : json_get_string buf ("cmd".toList) 16 = some ("helo".toList))
    (hid : json_get_string buf ("id".toList) PN_MAX_ID_LEN = some id)
    (hns : ¬(st.announcing = true ∧ id = st.my_service.id))
    (hsvc : json_get_string buf ("svc".toList) PN_MAX_SERVICE_LEN = none) :
    parse_message st buf sender_ip now junk = ⟨st, -1, []⟩ := by
  unfold parse_message
  rw [hm, hc, hid, hsvc]
  simp [hns]

/-- Witness for missing_svc_rejected: a non-announcing listener receives
    a svc-less presence message. -/
theorem missing_svc_rejected_witness :
    json_get_string ("\x7b\"m\":\"PNSD\",\"cmd\":\"helo\",\"id\":\"B\"\x7d".toList)
      ("svc".toList) PN_MAX_SERVICE_LEN = none ∧
    parse_message ⟨false, emptyService, emptyRegistry 2, true⟩
      ("\x7b\"m\":\"PNSD\",\"cmd\":\"helo\",\"id\":\"B\"\x7d".toList) [] 0 [] =
      ⟨⟨false, emptyService, emptyRegistry 2, true⟩, -1, []⟩ :=
  ⟨by decide,
    missing_svc_rejected _ _ _ _ _ ("B".toList)
      (by decide) (by decide) (by decide) (by decide) (by decide)⟩

/-! ## Claim C7: encoders never exceed the buffer -/

/-- C7: for every self descriptor (fields of arbitrary content and
    length) and every buffer capacity of at least one byte, the encoders
    validate the remaining capacity before each field append and abort
    the whole encode on exhaustion, so a successful encode always fits
    strictly inside the buffer (the strict bound leaves the byte the NUL
    terminator occupies). -/
theorem encoders_respect_capacity (self : PnService) (local_ip : List Char)
    (now : Int) (maxlen : Nat) (hcap : 1 ≤ maxlen) :
    (∀ s, build_helo_message self local_ip now maxlen = some s → s.length < maxlen) ∧
    (∀ s, build_bye_message self now maxlen = some s → s.length < maxlen) := by
  constructor
  · intro s hs
    unfold build_helo_message at hs
    repeat' split at hs
    any_goals exact Option.noConfusion hs
    all_goals
      obtain rfl := Option.some.inj hs
      simp only [List.length_append, List.length_cons, List.length_nil]
      omega
  · intro s hs
    unfold build_bye_message at hs
    repeat' split at hs
    any_goals exact Option.noConfusion hs
    all_goals
      obtain rfl := Option.some.inj hs
      simp only [List.length_append, List.length_cons, List.length_nil]
      omega

/-- Witness for encoders_respect_capacity: the bound instantiated at a
    concrete descriptor and the real PN_MAX_MSG_LEN capacity. -/
theorem encoders_respect_capacity_witness :
    1 ≤ 1024 ∧
    ((∀ s, build_helo_message
        { id := "A1".toList, service := "sdr".toList, ip := "1.2.3.4".toList,
          ctrl_port := 4535, data_port := 4536, caps := "c1".toList,
          last_seen := 0, active := true } ("1.2.3.4".toList) 5 1024 = some s →
        s.length < 1024) ∧
     (∀ s, build_bye_message
        { id := "A1".toList, service := "sdr".toList, ip := "1.2.3.4".toList,
          ctrl_port := 4535, data_port := 4536, caps := "c1".toList,
          last_seen := 0, active := true } 5 1024 = some s → s.length < 1024)) :=
  ⟨by decide,
    encoders_respect_capacity
      { id := "A1".toList, service := "sdr".toList, ip := "1.2.3.4".toList,
        ctrl_port := 4535, data_port := 4536, caps := "c1".toList,
        last_seen := 0, active := true } ("1.2.3.4".toList) 5 1024 (by decide)⟩

/-! ## Claim C3: repeated presence messages for one identity -/

/-- The overwrite scan finds no slot exactly when no slot satisfies the
    predicate. -/
theorem setFirst_none_iff (p : PnService → Bool) (v : PnService) (l : List PnService) :
    setFirst p v l = none ↔ ∀ x ∈ l, p x = false := by
  induction l with
  | nil => simp [setFirst]
  | cons a rest ih =>
    by_cases ha : p a
    · simp [setFirst, ha]
    · simp [setFirst, ha, ih]

/-- Decomposition of a successful overwrite scan: the registry splits at
    the first slot satisfying the predicate, and only that slot is
    replaced. -/
theorem setFirst_some_decomp (p : PnService → Bool) (v : PnService)
    (l l2 : List PnService) (h : setFirst p v l = some l2) :
    ∃ u x w, l = u ++ x :: w ∧ p x = true ∧ (∀ y ∈ u, p y = false) ∧
      l2 = u ++ v :: w := by
  induction l generalizing l2 with
  | nil => simp [setFirst] at h
  | cons a rest ih =>
    by_cases ha : p a
    · rw [setFirst, if_pos ha] at h
      exact ⟨[], a, rest, rfl, ha, by simp, by simpa using h.symm⟩
    · rw [setFirst, if_neg ha] at h
      obtain ⟨r2, hr2, rfl⟩ := Option.map_eq_some'.mp h
      obtain ⟨u, x, w, rfl, hx, hu, rfl⟩ := ih r2 hr2
      refine ⟨a :: u, x, w, rfl, hx, ?_, rfl⟩
      intro y hy
      rcases List.mem_cons.mp hy with rfl | hy'
      · simpa using ha
      · exact hu y hy'

/-- One helo-branch upsert of an active record `v` carrying identity
    `id` preserves the at-most-one-active-record-per-identity invariant,
    and leaves exactly `v` as the active record for `id` whenever `id`
    was already present or some slot was free. -/
theorem upsert_step (r : List PnService) (id : List Char) (v : PnService)
    (hvid : v.id = id) (hvact : v.active = true) (h : atMostOnePerId r) :
    atMostOnePerId (upsert r id v).1 ∧
    ((filterId r id ≠ [] ∨ ∃ s ∈ r, s.active = false) →
      filterId (upsert r id v).1 id = [v]) := by
  have hpv : (v.active && v.id == id) = true := by simp [hvact, hvid]
  have hvne : ∀ i : List Char, i ≠ id → ¬((v.active && v.id == i) = true) := by
    intro i hi hc
    simp [hvid, hvact] at hc
    exact hi hc.symm
  cases hset1 : setFirst (fun s => s.active && s.id == id) v r with
  | some r2 =>
    obtain ⟨u, x, w, rfl, hx, hu, rfl⟩ := setFirst_some_decomp _ _ _ _ hset1
    have hfu : filterId u id = [] :=
      List.filter_eq_nil_iff.mpr (fun y hy => by simp [hu y hy])
    have hfw : filterId w id = [] := by
      have h1 := h id
      simp only [filterId, List.filter_append] at h1 hfu ⊢
      rw [@List.filter_cons_of_pos _ (fun s => s.active && s.id == id) x w hx, hfu] at h1
      simp only [List.length_append, List.length_cons, List.nil_append,
        List.length_nil] at h1
      exact List.eq_nil_of_length_eq_zero (by omega)
    have hres : (upsert (u ++ x :: w) id v).1 = u ++ v :: w := by
      simp [upsert, hset1]
    rw [hres]
    have hone : filterId (u ++ v :: w) id = [v] := by
      simp only [filterId, List.filter_append] at hfu hfw ⊢
      rw [@List.filter_cons_of_pos _ (fun s => s.active && s.id == id) v w hpv, hfu, hfw]
      rfl
    refine ⟨?_, fun _ => hone⟩
    intro i
    by_cases hi : i = id
    · subst hi
      rw [hone]
      simp
    · have h1 := h i
      simp only [filterId, List.filter_append, List.length_append] at h1 ⊢
      rw [@List.filter_cons_of_neg _ (fun s => s.active && s.id == i) v w (hvne i hi)]
      by_cases hxi : (x.active && x.id == i) = true
      · rw [@List.filter_cons_of_pos _ (fun s => s.active && s.id == i) x w hxi] at h1
        simp only [List.length_cons] at h1
        omega
      · rw [@List.filter_cons_of_neg _ (fun s => s.active && s.id == i) x w hxi] at h1
        omega
  | none =>
    have hall : ∀ s ∈ r, (s.active && s.id == id) = false :=
      (setFirst_none_iff _ _ _).mp hset1
    cases hset2 : setFirst (fun s => !s.active) v r with
    | some r2 =>
      obtain ⟨u, x, w, rfl, hx, hu, rfl⟩ := setFirst_some_decomp _ _ _ _ hset2
      have hxact : x.active = false := by simpa using hx
      have hfu : filterId u id = [] :=
        List.filter_eq_nil_iff.mpr (fun y hy => by
          simp [hall y (by simp [hy])])
      have hfw : filterId w id = [] :=
        List.filter_eq_nil_iff.mpr (fun y hy => by
          simp [hall y (by simp [hy])])
      have hres : (upsert (u ++ x :: w) id v).1 = u ++ v :: w := by
        simp [upsert, hset1, hset2]
      rw [hres]
      have hone : filterId (u ++ v :: w) id = [v] := by
        simp only [filterId, List.filter_append] at hfu hfw ⊢
        rw [@List.filter_cons_of_pos _ (fun s => s.active && s.id == id) v w hpv, hfu, hfw]
        rfl
      refine ⟨?_, fun _ => hone⟩
      intro i
      by_cases hi : i = id
      · subst hi
        rw [hone]
        simp
      · have h1 := h i
        have hxi : ¬((x.active && x.id == i) = true) := by simp [hxact]
        simp only [filterId, List.filter_append, List.length_append] at h1 ⊢
        rw [@List.filter_cons_of_neg _ (fun s => s.active && s.id == i) v w (hvne i hi)]
        rw [@List.filter_cons_of_neg _ (fun s => s.active && s.id == i) x w hxi] at h1
        omega
    | none =>
      have hres : (upsert r id v).1 = r := by
        simp [upsert, hset1, hset2]
      rw [hres]
      refine ⟨h, ?_⟩
      intro hor
      exfalso
      rcases hor with hne | ⟨s, hs, hsa⟩
      · exact hne (List.filter_eq_nil_iff.mpr (fun y hy => by simp [hall y hy]))
      · have := (setFirst_none_iff (fun s => !s.active) v r).mp hset2 s hs
        simp [hsa] at this

/-- The freshly initialized registry satisfies the per-identity
    invariant. -/
theorem emptyRegistry_atMostOne (n : Nat) : atMostOnePerId (emptyRegistry n) := by
  intro i
  have : filterId (emptyRegistry n) i = [] :=
    List.filter_eq_nil_iff.mpr (fun y hy => by
      have := List.eq_of_mem_replicate hy
      simp [this, emptyService])
  simp [this]

/-- Processing any presence-message sequence for one identity preserves
    the per-identity invariant. -/
theorem processSeq_atMostOne (id : List Char)
    (hid : id.take (PN_MAX_ID_LEN - 1) = id)
    (msgs : List HeloFields) (r : List PnService) (h : atMostOnePerId r) :
    atMostOnePerId (processSeq r id msgs) := by
  induction msgs generalizing r with
  | nil => exact h
  | cons f rest ih =>
    exact ih _ (upsert_step r id (heloRec id f)
      (by simp [heloRec, mkRec, hid]) (by simp [heloRec, mkRec]) h).1

/-- After a non-empty presence-message sequence for one identity, the
    active record for that identity is exactly the one built from the
    last message, provided the starting registry satisfied the invariant
    and either already carried the identity or had a free slot. -/
theorem processSeq_last (id : List Char)
    (hid : id.take (PN_MAX_ID_LEN - 1) = id)
    (msgs : List HeloFields) (f : HeloFields) (r : List PnService)
    (h : atMostOnePerId r)
    (hfree : filterId r id ≠ [] ∨ ∃ s ∈ r, s.active = false) :
    filterId (processSeq r id (msgs ++ [f])) id = [heloRec id f] := by
  induction msgs generalizing r with
  | nil =>
    have step := upsert_step r id (heloRec id f)
      (by simp [heloRec, mkRec, hid]) (by simp [heloRec, mkRec]) h
    simpa [processSeq] using step.2 hfree
  | cons g rest ih =>
    have step := upsert_step r id (heloRec id g)
      (by simp [heloRec, mkRec, hid]) (by simp [heloRec, mkRec]) h
    have hnext : filterId (upsert r id (heloRec id g)).1 id ≠ [] := by
      rw [step.2 hfree]
      simp
    exact ih _ step.1 (Or.inl hnext)

/-- C3: for every sequence of presence messages carrying one identity
    (of at most PN_MAX_ID_LEN - 1 characters, as the decoder guarantees,
    and distinct from the local announcing identity so the messages reach
    the registry update), processing the sequence from the freshly
    initialized registry leaves exactly one active record for that
    identity, whose fields are those of the most recently processed
    message truncated to the bounded capacities; and after every prefix
    of the sequence no two active records share an identity. -/
theorem helo_same_id_single_active_record (id : List Char)
    (hid : id.take (PN_MAX_ID_LEN - 1) = id)
    (pre : List HeloFields) (f : HeloFields) :
    filterId (processSeq (emptyRegistry PN_MAX_SERVICES) id (pre ++ [f])) id
      = [heloRec id f] ∧
    ∀ p, List.IsPrefix p (pre ++ [f]) →
      atMostOnePerId (processSeq (emptyRegistry PN_MAX_SERVICES) id p) := by
  constructor
  · refine processSeq_last id hid pre f _ (emptyRegistry_atMostOne _) (Or.inr ?_)
    refine ⟨emptyService, ?_, rfl⟩
    simp [emptyRegistry, List.mem_replicate, PN_MAX_SERVICES]
  · intro p _
    exact processSeq_atMostOne id hid p _ (emptyRegistry_atMostOne _)

/-- Witness for helo_same_id_single_active_record: two concrete messages
    for one identity. -/
theorem helo_same_id_single_active_record_witness :
    ("A1".toList).take (PN_MAX_ID_LEN - 1) = "A1".toList ∧
    (filterId
        (processSeq (emptyRegistry PN_MAX_SERVICES) ("A1".toList)
          ([⟨"s1".toList, "i1".toList, 1, 2, "c1".toList, 3⟩] ++
            [⟨"s2".toList, "i2".toList, 4, 5, "c2".toList, 6⟩]))
        ("A1".toList)
      = [heloRec ("A1".toList) ⟨"s2".toList, "i2".toList, 4, 5, "c2".toList, 6⟩] ∧
    ∀ p, List.IsPrefix p
        ([⟨"s1".toList, "i1".toList, 1, 2, "c1".toList, 3⟩] ++
          [⟨"s2".toList, "i2".toList, 4, 5, "c2".toList, 6⟩]) →
      atMostOnePerId (processSeq (emptyRegistry PN_MAX_SERVICES) ("A1".toList) p)) :=
  ⟨by decide,
    helo_same_id_single_active_record ("A1".toList) (by decide)
      [⟨"s1".toList, "i1".toList, 1, 2, "c1".toList, 3⟩]
      ⟨"s2".toList, "i2".toList, 4, 5, "c2".toList, 6⟩⟩

/-! ## Claim C4: encode/decode round trip -/

/-- C4 counterexample: the encoder does not escape double quotes, so a
    self descriptor whose identity contains one encodes successfully but
    decodes to a different identity. -/
theorem helo_roundtrip_counterexample :
    ((build_helo_message
        { id := ['a', qc], service := "s".toList, ip := "i".toList, ctrl_port := 1,
          data_port := 0, caps := [], last_seen := 0, active := true }
        ("i".toList) 5 1024).bind
      (fun w => json_get_string w ("id".toList) PN_MAX_ID_LEN)) = some ("a".toList) ∧
    (build_helo_message
        { id := ['a', qc], service := "s".toList, ip := "i".toList, ctrl_port := 1,
          data_port := 0, caps := [], last_seen := 0, active := true }
        ("i".toList) 5 1024).isSome = true ∧
    "a".toList ≠ ['a', qc] := by
  decide

/-- Digit characters produced by Nat.digitChar carry the expected
    value. -/
theorem digitChar_spec (k : Nat) (hk : k < 10) :
    (Nat.digitChar k).isDigit = true ∧ (Nat.digitChar k).toNat - 48 = k := by
  interval_cases k <;> exact ⟨by decide, by decide⟩

/-- A digit character is not a double quote. -/
theorem digit_ne_qc (c : Char) (hd : c.isDigit = true) : c ≠ qc := by
  intro hq
  subst hq
  exact absurd hd (by decide)

/-- A digit character is not whitespace for the atoi skip. -/
theorem digit_not_space (c : Char) (hd : c.isDigit = true) :
    isSpaceChar c = false := by
  by_contra hs
  rw [Bool.not_eq_false] at hs
  simp only [isSpaceChar, Bool.or_eq_true, decide_eq_true_eq] at hs
  rcases hs with ((((rfl | rfl) | rfl) | rfl) | rfl) | rfl <;> exact absurd hd (by decide)

/-- A digit character is neither a minus nor a plus sign. -/
theorem digit_ne_sign (c : Char) (hd : c.isDigit = true) :
    c ≠ '-' ∧ c ≠ '+' := by
  constructor <;> intro hq <;> subst hq <;> exact absurd hd (by decide)

/-- The accumulator of the digit-rendering loop is a suffix of its
    output. -/
theorem natDigitsAux_append : ∀ (fuel n : Nat) (acc : List Char),
    natDigitsAux fuel n acc = natDigitsAux fuel n [] ++ acc := by
  intro fuel
  induction fuel with
  | zero => intro n acc; rfl
  | succ fuel ih =>
    intro n acc
    by_cases h : n = 0
    · simp [natDigitsAux, h]
    · rw [natDigitsAux, if_neg h, natDigitsAux, if_neg h]
      rw [ih (n / 10) (Nat.digitChar (n % 10) :: acc),
        ih (n / 10) [Nat.digitChar (n % 10)]]
      simp

/-- Every character the digit-rendering loop emits is a decimal
    digit. -/
theorem natDigitsAux_all_digits : ∀ (fuel n : Nat),
    ∀ c ∈ natDigitsAux fuel n [], c.isDigit = true := by
  intro fuel
  induction fuel with
  | zero => intro n c hc; simp [natDigitsAux] at hc
  | succ fuel ih =>
    intro n c hc
    by_cases h : n = 0
    · simp [natDigitsAux, h] at hc
    · rw [natDigitsAux, if_neg h, natDigitsAux_append] at hc
      rcases List.mem_append.mp hc with hc | hc
      · exact ih (n / 10) c hc
      · have : c = Nat.digitChar (n % 10) := by simpa using hc
        subst this
        exact (digitChar_spec (n % 10) (Nat.mod_lt n (by decide))).1

/-- Folding the atoi digit step over the rendered digits recovers the
    number, shifted past the accumulator. -/
theorem foldl_natDigitsAux : ∀ (fuel n : Nat), n ≤ fuel → ∀ a : Nat,
    (natDigitsAux fuel n []).foldl (fun x c => x * 10 + (c.toNat - 48)) a
      = a * 10 ^ (natDigitsAux fuel n []).length + n := by
  intro fuel
  induction fuel with
  | zero =>
    intro n hn a
    have : n = 0 := by omega
    subst this
    simp [natDigitsAux]
  | succ fuel ih =>
    intro n hn a
    by_cases h : n = 0
    · subst h
      simp [natDigitsAux]
    · have hle : n / 10 ≤ fuel := by
        have := Nat.div_lt_self (Nat.pos_of_ne_zero h) (show 1 < 10 by decide)
        omega
      rw [natDigitsAux, if_neg h, natDigitsAux_append]
      rw [List.foldl_append, List.length_append]
      rw [ih (n / 10) hle a]
      have hd := (digitChar_spec (n % 10) (Nat.mod_lt n (by decide))).2
      have h2 := Nat.div_add_mod n 10
      simp only [List.foldl_cons, List.foldl_nil, List.length_cons, List.length_nil]
      rw [hd]
      calc (a * 10 ^ (natDigitsAux fuel (n / 10) []).length + n / 10) * 10 + n % 10
          = a * (10 ^ (natDigitsAux fuel (n / 10) []).length * 10)
              + (10 * (n / 10) + n % 10) := by ring
        _ = a * 10 ^ ((natDigitsAux fuel (n / 10) []).length + (0 + 1)) + n := by
              rw [h2, pow_succ]

/-- The %u rendering is never empty. -/
theorem natDigits_ne_nil (n : Nat) : natDigits n ≠ [] := by
  unfold natDigits
  by_cases h : n = 0
  · simp [h]
  · rw [if_neg h]
    cases n with
    | zero => exact absurd rfl h
    | succ m =>
      rw [natDigitsAux, if_neg h, natDigitsAux_append]
      simp

/-- Every character of the %u rendering is a decimal digit. -/
theorem natDigits_all_digits (n : Nat) : ∀ c ∈ natDigits n, c.isDigit = true := by
  unfold natDigits
  by_cases h : n = 0
  · rw [if_pos h]
    intro c hc
    have : c = '0' := by simpa using hc
    subst this
    decide
  · rw [if_neg h]
    exact natDigitsAux_all_digits n n

/-- Folding the atoi digit step over the %u rendering recovers the
    number. -/
theorem foldl_natDigits (n : Nat) :
    (natDigits n).foldl (fun x c => x * 10 + (c.toNat - 48)) 0 = n := by
  unfold natDigits
  by_cases h : n = 0
  · simp [h]
  · rw [if_neg h, foldl_natDigitsAux n n (Nat.le_refl n) 0]
    simp

/-- The atoi digit loop stops immediately on a non-digit head. -/
theorem atoiNat_stop (rest : List Char) (a : Nat)
    (h : ∀ c ∈ rest.take 1, c.isDigit = false) : atoiNat rest a = a := by
  cases rest with
  | nil => rfl
  | cons c t => simp [atoiNat, h c (by simp)]

/-- The atoi digit loop consumes a leading all-digit block as one
    fold. -/
theorem atoiNat_append_digits (d : List Char) : ∀ (rest : List Char) (a : Nat),
    (∀ c ∈ d, c.isDigit = true) →
    atoiNat (d ++ rest) a
      = atoiNat rest (d.foldl (fun x c => x * 10 + (c.toNat - 48)) a) := by
  induction d with
  | nil =>
    intro rest a _
    rfl
  | cons c t ih =>
    intro rest a h
    rw [List.cons_append, atoiNat, if_pos (h c (by simp)), List.foldl_cons]
    exact ih rest _ (fun x hx => h x (by simp [hx]))

/-- Length bound for the digit rendering: below 10 ^ k needs at most k
    digits. -/
theorem natDigitsAux_length_le : ∀ (fuel k n : Nat) (acc : List Char), n < 10 ^ k →
    (natDigitsAux fuel n acc).length ≤ k + acc.length := by
  intro fuel
  induction fuel with
  | zero =>
    intro k n acc _
    simp [natDigitsAux]
  | succ fuel ih =>
    intro k n acc h
    by_cases h0 : n = 0
    · simp [natDigitsAux, h0]
    · rw [natDigitsAux, if_neg h0]
      cases k with
      | zero =>
        exact absurd h (by simp; omega)
      | succ k =>
        have hdiv : n / 10 < 10 ^ k := by
          apply Nat.div_lt_of_lt_mul
          calc n < 10 ^ (k + 1) := h
            _ = 10 * 10 ^ k := by rw [pow_succ]; ring
        have := ih k (n / 10) (Nat.digitChar (n % 10) :: acc) hdiv
        simp only [List.length_cons] at this
        omega

/-- Length bound for the %d rendering of an int below 10 ^ 10 in
    magnitude. -/
theorem intChars_length_le (i : Int) (h : i.natAbs < 10 ^ 10) :
    (intChars i).length ≤ 11 := by
  have hn : ∀ m : Nat, m < 10 ^ 10 → (natDigits m).length ≤ 10 := by
    intro m hm
    unfold natDigits
    by_cases h0 : m = 0
    · simp [h0]
    · rw [if_neg h0]
      have := natDigitsAux_length_le m 10 m [] hm
      simpa using this
  unfold intChars
  by_cases hi : i < 0
  · rw [if_pos hi]
    simp only [List.length_cons]
    have := hn i.natAbs h
    omega
  · rw [if_neg hi]
    exact Nat.le_trans (hn i.natAbs h) (by omega)

/-- No character of the %d rendering is a double quote. -/
theorem intChars_qfree (i : Int) : ∀ c ∈ intChars i, c ≠ qc := by
  intro c hc
  unfold intChars at hc
  by_cases hi : i < 0
  · rw [if_pos hi] at hc
    rcases List.mem_cons.mp hc with rfl | hc
    · decide
    · exact digit_ne_qc c (natDigits_all_digits _ c hc)
  · rw [if_neg hi] at hc
    exact digit_ne_qc c (natDigits_all_digits _ c hc)

/-- Parsing the %d rendering of an int followed by a non-digit recovers
    the int: the decode side of the numeric round trip. -/
theorem atoi_intChars (i : Int) (rest : List Char)
    (h : ∀ c ∈ rest.take 1, c.isDigit = false) :
    atoi (intChars i ++ rest) = i := by
  unfold intChars
  by_cases hi : i < 0
  · rw [if_pos hi, List.cons_append]
    unfold atoi
    rw [List.dropWhile_cons, if_neg (show ¬(isSpaceChar '-' = true) by decide)]
    rw [atoiSigned, if_pos rfl]
    rw [atoiNat_append_digits _ _ _ (natDigits_all_digits _),
      atoiNat_stop rest _ h, foldl_natDigits]
    omega
  · rw [if_neg hi]
    cases hd : natDigits i.natAbs with
    | nil => exact absurd hd (natDigits_ne_nil _)
    | cons c t =>
      have hcd : c.isDigit = true :=
        natDigits_all_digits i.natAbs c (by rw [hd]; simp)
      have hns : ¬(isSpaceChar c = true) := by
        rw [digit_not_space c hcd]
        exact Bool.false_ne_true
      unfold atoi
      rw [List.cons_append, List.dropWhile_cons, if_neg hns]
      rw [atoiSigned, if_neg (digit_ne_sign c hcd).1, if_neg (digit_ne_sign c hcd).2]
      rw [← List.cons_append, ← hd]
      rw [atoiNat_append_digits _ _ _ (natDigits_all_digits _),
        atoiNat_stop rest _ h, foldl_natDigits]
      omega

/-- Characterization of the Boolean prefix test. -/
theorem prefixOfB_iff (p : List Char) : ∀ l, prefixOfB p l = true ↔ ∃ t, l = p ++ t := by
  induction p with
  | nil =>
    intro l
    simp [prefixOfB]
  | cons a as ih =>
    intro l
    cases l with
    | nil =>
      simp [prefixOfB]
    | cons b bs =>
      simp only [prefixOfB, Bool.and_eq_true, beq_iff_eq, ih bs, List.cons_append,
        List.cons.injEq]
      constructor
      · rintro ⟨rfl, t, rfl⟩
        exact ⟨t, rfl, rfl⟩
      · rintro ⟨t, rfl, rfl⟩
        exact ⟨rfl, t, rfl⟩

/-- The prefix test accepts the prefix itself. -/
theorem prefixOfB_self (p t : List Char) : prefixOfB p (p ++ t) = true :=
  (prefixOfB_iff p _).mpr ⟨t, rfl⟩

/-- The prefix test fails on a head mismatch. -/
theorem pfx_false_head_ne (a b : Char) (t1 t2 : List Char) (h : a ≠ b) :
    prefixOfB (a :: t1) (b :: t2) = false := by
  have hb : (a == b) = false := beq_eq_false_iff_ne.mpr h
  simp [prefixOfB, hb]

/-- Head-mismatch failure through a leading append. -/
theorem pfx_false_append_head_ne (a b : Char) (t X t2 : List Char) (h : a ≠ b) :
    prefixOfB ((a :: t) ++ X) (b :: t2) = false := by
  rw [List.cons_append]
  exact pfx_false_head_ne a b _ _ h

/-- Stripping a common leading double quote from the prefix test. -/
theorem pfx_cons_qc (p2 l : List Char) :
    prefixOfB (qc :: p2) (qc :: l) = prefixOfB p2 l := by
  simp [prefixOfB]

/-- Quote-delimited structure lemma: when neither side contains a double
    quote before its delimiter, a successful prefix test forces the two
    quote-free blocks to coincide and the test to continue past the
    delimiters. -/
theorem pfx_split (K : List Char) : ∀ (f X Y : List Char),
    (∀ c ∈ K, c ≠ qc) → (∀ c ∈ f, c ≠ qc) →
    prefixOfB (K ++ qc :: X) (f ++ qc :: Y) = true →
    K = f ∧ prefixOfB X Y = true := by
  induction K with
  | nil =>
    intro f X Y _ hf h
    cases f with
    | nil =>
      refine ⟨rfl, ?_⟩
      rw [List.nil_append, List.nil_append, pfx_cons_qc] at h
      exact h
    | cons b bs =>
      exfalso
      have hb : b ≠ qc := hf b (by simp)
      rw [List.nil_append, List.cons_append,
        pfx_false_head_ne qc b _ _ (Ne.symm hb)] at h
      exact Bool.false_ne_true h
  | cons a as ih =>
    intro f X Y hK hf h
    cases f with
    | nil =>
      exfalso
      have ha : a ≠ qc := hK a (by simp)
      rw [List.nil_append, List.cons_append,
        pfx_false_head_ne a qc _ _ ha] at h
      exact Bool.false_ne_true h
    | cons b bs =>
      rw [List.cons_append, List.cons_append] at h
      simp only [prefixOfB, Bool.and_eq_true, beq_iff_eq] at h
      obtain ⟨rfl, h2⟩ := h
      obtain ⟨rfl, h3⟩ := ih bs X Y (fun c hc => hK c (by simp [hc]))
        (fun c hc => hf c (by simp [hc])) h2
      exact ⟨rfl, h3⟩

/-- The prefix test fails at a quote-delimited block other than the
    key. -/
theorem pfx_false_of_key_ne (K f X Y : List Char)
    (hK : ∀ c ∈ K, c ≠ qc) (hf : ∀ c ∈ f, c ≠ qc) (hne : K ≠ f) :
    prefixOfB (K ++ qc :: X) (f ++ qc :: Y) = false := by
  by_contra hc
  rw [Bool.not_eq_false] at hc
  exact hne (pfx_split K f X Y hK hf hc).1

/-- The prefix test fails at a quote-delimited block when the
    continuations already disagree. -/
theorem pfx_false_of_tail (K f X Y : List Char)
    (hK : ∀ c ∈ K, c ≠ qc) (hf : ∀ c ∈ f, c ≠ qc)
    (hXY : prefixOfB X Y = false) :
    prefixOfB (K ++ qc :: X) (f ++ qc :: Y) = false := by
  by_contra hc
  rw [Bool.not_eq_false] at hc
  have h2 := (pfx_split K f X Y hK hf hc).2
  rw [hXY] at h2
  exact Bool.false_ne_true h2

/-- The strstr scan moves one position when the pattern does not match
    here. -/
theorem dropAfterFirst_cons_neg (pat : List Char) (c : Char) (rest : List Char)
    (h : prefixOfB pat (c :: rest) = false) :
    dropAfterFirst pat (c :: rest) = dropAfterFirst pat rest := by
  rw [dropAfterFirst, if_neg]
  rw [h]
  exact Bool.false_ne_true

/-- A pattern that opens with a quote skips any other character. -/
theorem step_char (p2 : List Char) (c : Char) (rest : List Char) (h : c ≠ qc) :
    dropAfterFirst (qc :: p2) (c :: rest) = dropAfterFirst (qc :: p2) rest :=
  dropAfterFirst_cons_neg _ _ _ (pfx_false_head_ne qc c _ _ (Ne.symm h))

/-- A pattern that opens with a quote skips any quote-free block. -/
theorem step_qfree (p2 : List Char) : ∀ (l rest : List Char), (∀ c ∈ l, c ≠ qc) →
    dropAfterFirst (qc :: p2) (l ++ rest) = dropAfterFirst (qc :: p2) rest := by
  intro l
  induction l with
  | nil =>
    intro rest _
    rfl
  | cons c t ih =>
    intro rest h
    rw [List.cons_append, step_char _ _ _ (h c (by simp))]
    exact ih rest (fun x hx => h x (by simp [hx]))

/-- The scan skips a quote position refuted by a prefix-test failure. -/
theorem step_quote (p2 rest : List Char)
    (h : prefixOfB (qc :: p2) (qc :: rest) = false) :
    dropAfterFirst (qc :: p2) (qc :: rest) = dropAfterFirst (qc :: p2) rest :=
  dropAfterFirst_cons_neg _ _ _ h

/-- The scan succeeds at an exact pattern position and returns what
    follows. -/
theorem dropAfterFirst_self (pat tail : List Char) (h : pat ≠ []) :
    dropAfterFirst pat (pat ++ tail) = some tail := by
  cases pat with
  | nil => exact absurd rfl h
  | cons p ps =>
    rw [List.cons_append, dropAfterFirst, if_pos]
    · rw [← List.cons_append]
      congr 1
      simp [List.drop_left]
    · rw [← List.cons_append]
      rw [prefixOfB_self]

/-- The scan fails on an empty haystack for a non-empty pattern. -/
theorem dropAfterFirst_nil (pat : List Char) (h : pat ≠ []) :
    dropAfterFirst pat [] = none := by
  rw [dropAfterFirst, if_neg h]

/-- The strchr scan cuts a quote-free block at its closing quote. -/
theorem takeBeforeQuote_append (f : List Char) : ∀ rest, (∀ c ∈ f, c ≠ qc) →
    takeBeforeQuote (f ++ qc :: rest) = some f := by
  induction f with
  | nil =>
    intro rest _
    simp [takeBeforeQuote]
  | cons c t ih =>
    intro rest h
    rw [List.cons_append, takeBeforeQuote, if_neg (h c (by simp)), ih rest
      (fun x hx => h x (by simp [hx]))]
    rfl

/-- Skipping one whole `"key":value` segment of the wire during a search
    for a different key (the value digits are quote-free). -/
theorem skip_int_seg (kh : Char) (kt u k d rest : List Char)
    (hkeyq : ∀ c ∈ kh :: kt, c ≠ qc) (hkq : ∀ c ∈ k, c ≠ qc)
    (hdq : ∀ c ∈ d, c ≠ qc) (hne : kh :: kt ≠ k) (hkh : kh ≠ ':') :
    dropAfterFirst (qc :: ((kh :: kt) ++ qc :: ':' :: u))
        (qc :: (k ++ qc :: ':' :: (d ++ rest)))
      = dropAfterFirst (qc :: ((kh :: kt) ++ qc :: ':' :: u)) rest := by
  have h1 : prefixOfB (qc :: ((kh :: kt) ++ qc :: ':' :: u))
      (qc :: (k ++ qc :: ':' :: (d ++ rest))) = false := by
    rw [pfx_cons_qc]
    exact pfx_false_of_key_ne _ _ _ _ hkeyq hkq hne
  rw [step_quote _ _ h1, step_qfree _ k _ hkq]
  have h2 : prefixOfB (qc :: ((kh :: kt) ++ qc :: ':' :: u))
      (qc :: ':' :: (d ++ rest)) = false := by
    rw [pfx_cons_qc]
    exact pfx_false_append_head_ne kh ':' kt _ _ hkh
  rw [step_quote _ _ h2, step_char _ ':' _ (by decide), step_qfree _ d _ hdq]

/-- Skipping one whole `"key":"value"` segment of the wire during a
    search for a different key (the value is quote-free). -/
theorem skip_str_seg (kh : Char) (kt u k f rest : List Char)
    (hkeyq : ∀ c ∈ kh :: kt, c ≠ qc) (hkq : ∀ c ∈ k, c ≠ qc)
    (hfq : ∀ c ∈ f, c ≠ qc) (hne : kh :: kt ≠ k) (hkh : kh ≠ ':')
    (hcolon : prefixOfB (':' :: u) rest = false)
    (hcq : prefixOfB ((kh :: kt) ++ qc :: ':' :: u) rest = false) :
    dropAfterFirst (qc :: ((kh :: kt) ++ qc :: ':' :: u))
        (qc :: (k ++ qc :: ':' :: qc :: (f ++ qc :: rest)))
      = dropAfterFirst (qc :: ((kh :: kt) ++ qc :: ':' :: u)) rest := by
  have h1 : prefixOfB (qc :: ((kh :: kt) ++ qc :: ':' :: u))
      (qc :: (k ++ qc :: ':' :: qc :: (f ++ qc :: rest))) = false := by
    rw [pfx_cons_qc]
    exact pfx_false_of_key_ne _ _ _ _ hkeyq hkq hne
  rw [step_quote _ _ h1, step_qfree _ k _ hkq]
  have h2 : prefixOfB (qc :: ((kh :: kt) ++ qc :: ':' :: u))
      (qc :: ':' :: qc :: (f ++ qc :: rest)) = false := by
    rw [pfx_cons_qc]
    exact pfx_false_append_head_ne kh ':' kt _ _ hkh
  rw [step_quote _ _ h2, step_char _ ':' _ (by decide)]
  have h3 : prefixOfB (qc :: ((kh :: kt) ++ qc :: ':' :: u))
      (qc :: (f ++ qc :: rest)) = false := by
    rw [pfx_cons_qc]
    exact pfx_false_of_tail _ _ _ _ hkeyq hfq hcolon
  rw [step_quote _ _ h3, step_qfree _ f _ hfq]
  have h4 : prefixOfB (qc :: ((kh :: kt) ++ qc :: ':' :: u)) (qc :: rest) = false := by
    rw [pfx_cons_qc]
    exact hcq
  rw [step_quote _ _ h4]

/-- A string append succeeds exactly when the fragment fits. -/
theorem json_add_string_some (buf : List Char) (maxlen : Nat) (key val : List Char)
    (comma : Bool)
    (h : buf.length +
      ((if comma then [','] else []) ++ qc :: key ++ qc :: ':' :: qc :: (val ++ [qc])).length
        < maxlen) :
    json_add_string buf maxlen key val comma
      = some (buf ++
          ((if comma then [','] else []) ++ qc :: key ++ qc :: ':' :: qc :: (val ++ [qc]))) := by
  simp only [json_add_string]
  rw [if_pos h]

/-- An int append succeeds exactly when the fragment fits. -/
theorem json_add_int_some (buf : List Char) (maxlen : Nat) (key : List Char)
    (val : Int) (comma : Bool)
    (h : buf.length +
      ((if comma then [','] else []) ++ qc :: key ++ qc :: ':' :: intChars val).length
        < maxlen) :
    json_add_int buf maxlen key val comma
      = some (buf ++
          ((if comma then [','] else []) ++ qc :: key ++ qc :: ':' :: intChars val)) := by
  simp only [json_add_int]
  rw [if_pos h]

/-- A list headed by a non-digit character starts with no digit. -/
theorem take1_not_digit (c0 : Char) (t : List Char) (h : c0.isDigit = false) :
    ∀ c ∈ ((c0 :: t).take 1), c.isDigit = false := by
  intro c hc
  simp at hc
  subst hc
  exact h

/-- Decoding composition: a located quote-free value within bounds is
    what json_get_string returns. -/
theorem json_get_string_of_drop (json key val rest2 : List Char) (maxlen : Nat)
    (hdrop : dropAfterFirst (strKeyPat key) json = some (val ++ qc :: rest2))
    (hq : ∀ c ∈ val, c ≠ qc) (hlen : val.length ≤ maxlen - 1) :
    json_get_string json key maxlen = some val := by
  simp only [json_get_string, hdrop, takeBeforeQuote_append val rest2 hq]
  rw [List.take_of_length_le hlen]

/-- Decoding composition: a located %d rendering followed by a non-digit
    is what json_get_int returns. -/
theorem json_get_int_of_drop (json key : List Char) (v : Int) (c0 : Char)
    (t : List Char)
    (hdrop : dropAfterFirst (intKeyPat key) json = some (intChars v ++ c0 :: t))
    (hc0 : c0.isDigit = false) :
    json_get_int json key = v := by
  simp only [json_get_int, hdrop]
  exact atoi_intChars v (c0 :: t) (take1_not_digit c0 t hc0)

/-- Decoding composition: an absent key decodes to 0. -/
theorem json_get_int_none (json key : List Char)
    (hdrop : dropAfterFirst (intKeyPat key) json = none) :
    json_get_int json key = 0 := by
  simp only [json_get_int, hdrop]

/-- The final capacity check of the builders, in rewrite form. -/
theorem close_brace_some (b : List Char) (maxlen : Nat) (h : b.length + 1 < maxlen) :
    (if b.length + 1 < maxlen then some (b ++ [rbrace]) else none)
      = some (b ++ [rbrace]) :=
  if_pos h

/-- A successful helo encode at the real PN_MAX_MSG_LEN capacity emits
    exactly the heloWire byte layout. -/
theorem build_helo_eq (self : PnService) (local_ip : List Char) (now : Int)
    (hlid : self.id.length ≤ 63) (hlsvc : self.service.length ≤ 31)
    (hlip : local_ip.length ≤ 63) (hlcaps : self.caps.length ≤ 127)
    (hcb : self.ctrl_port.natAbs < 10 ^ 10) (hdb : self.data_port.natAbs < 10 ^ 10)
    (hnb : now.natAbs < 10 ^ 10) :
    build_helo_message self local_ip now 1024 = some (heloWire self local_ip now) := by
  have l1 := intChars_length_le self.ctrl_port hcb
  have l2 := intChars_length_le self.data_port hdb
  have l3 := intChars_length_le now hnb
  have l4 : (intChars 1).length ≤ 11 := intChars_length_le 1 (by norm_num)
  by_cases hdp : 0 < self.data_port <;> by_cases hcaps : self.caps = [] <;>
    simp (disch := (simp [PNSD]; try omega))
      [build_helo_message, json_add_string_some, json_add_int_some, close_brace_some,
       hdp, hcaps, heloWire, wireV, wireCmd, wireId, wireSvc, wireIp, wirePort,
       wireData, wireCaps, wireTs, List.append_assoc, PNSD] <;> omega

/-- Locating the id value on the helo wire. -/
theorem wire_drop_id (self : PnService) (local_ip : List Char) (now : Int) :
    dropAfterFirst (strKeyPat ("id".toList)) (heloWire self local_ip now)
      = some (self.id ++ qc :: ',' :: wireSvc self local_ip now) := by
  unfold heloWire wireV wireCmd wireId
  rw [show strKeyPat ("id".toList) = qc :: (['i', 'd'] ++ qc :: ':' :: [qc]) from rfl]
  rw [step_char _ lbrace _ (by decide)]
  rw [skip_str_seg 'i' ['d'] [qc] ("m".toList) PNSD _ (by decide) (by decide) (by decide)
    (by decide) (by decide) (pfx_false_head_ne ':' ',' _ _ (by decide))
    (pfx_false_append_head_ne 'i' ',' ['d'] _ _ (by decide))]
  rw [step_char _ ',' _ (by decide)]
  rw [skip_int_seg 'i' ['d'] [qc] ("v".toList) (intChars 1) _ (by decide) (by decide)
    (intChars_qfree 1) (by decide) (by decide)]
  rw [step_char _ ',' _ (by decide)]
  rw [skip_str_seg 'i' ['d'] [qc] ("cmd".toList) ("helo".toList) _ (by decide) (by decide)
    (by decide) (by decide) (by decide) (pfx_false_head_ne ':' ',' _ _ (by decide))
    (pfx_false_append_head_ne 'i' ',' ['d'] _ _ (by decide))]
  rw [step_char _ ',' _ (by decide)]
  rw [show (qc :: ("id".toList ++ qc :: ':' :: qc ::
        (self.id ++ qc :: ',' :: wireSvc self local_ip now)))
      = (qc :: (['i', 'd'] ++ qc :: ':' :: [qc]))
        ++ (self.id ++ qc :: ',' :: wireSvc self local_ip now) from rfl]
  rw [dropAfterFirst_self _ _ (by simp)]

/-- Locating the svc value on the helo wire. -/
theorem wire_drop_svc (self : PnService) (local_ip : List Char) (now : Int)
    (hqid : ∀ c ∈ self.id, c ≠ qc) :
    dropAfterFirst (strKeyPat ("svc".toList)) (heloWire self local_ip now)
      = some (self.service ++ qc :: ',' :: wireIp self local_ip now) := by
  unfold heloWire wireV wireCmd wireId wireSvc
  rw [show strKeyPat ("svc".toList) = qc :: (['s', 'v', 'c'] ++ qc :: ':' :: [qc]) from rfl]
  rw [step_char _ lbrace _ (by decide)]
  rw [skip_str_seg 's' ['v', 'c'] [qc] ("m".toList) PNSD _ (by decide) (by decide)
    (by decide) (by decide) (by decide) (pfx_false_head_ne ':' ',' _ _ (by decide))
    (pfx_false_append_head_ne 's' ',' ['v', 'c'] _ _ (by decide))]
  rw [step_char _ ',' _ (by decide)]
  rw [skip_int_seg 's' ['v', 'c'] [qc] ("v".toList) (intChars 1) _ (by decide) (by decide)
    (intChars_qfree 1) (by decide) (by decide)]
  rw [step_char _ ',' _ (by decide)]
  rw [skip_str_seg 's' ['v', 'c'] [qc] ("cmd".toList) ("helo".toList) _ (by decide)
    (by decide) (by decide) (by decide) (by decide)
    (pfx_false_head_ne ':' ',' _ _ (by decide))
    (pfx_false_append_head_ne 's' ',' ['v', 'c'] _ _ (by decide))]
  rw [step_char _ ',' _ (by decide)]
  rw [skip_str_seg 's' ['v', 'c'] [qc] ("id".toList) self.id _ (by decide) (by decide)
    hqid (by decide) (by decide) (pfx_false_head_ne ':' ',' _ _ (by decide))
    (pfx_false_append_head_ne 's' ',' ['v', 'c'] _ _ (by decide))]
  rw [step_char _ ',' _ (by decide)]
  rw [show (qc :: ("svc".toList ++ qc :: ':' :: qc ::
        (self.service ++ qc :: ',' :: wireIp self local_ip now)))
      = (qc :: (['s', 'v', 'c'] ++ qc :: ':' :: [qc]))
        ++ (self.service ++ qc :: ',' :: wireIp self local_ip now) from rfl]
  rw [dropAfterFirst_self _ _ (by simp)]

/-- Locating the ip value on the helo wire. -/
theorem wire_drop_ip (self : PnService) (local_ip : List Char) (now : Int)
    (hqid : ∀ c ∈ self.id, c ≠ qc) (hqsvc : ∀ c ∈ self.service, c ≠ qc) :
    dropAfterFirst (strKeyPat ("ip".toList)) (heloWire self local_ip now)
      = some (local_ip ++ qc :: ',' :: wirePort self now) := by
  unfold heloWire wireV wireCmd wireId wireSvc wireIp
  rw [show strKeyPat ("ip".toList) = qc :: (['i', 'p'] ++ qc :: ':' :: [qc]) from rfl]
  rw [step_char _ lbrace _ (by decide)]
  rw [skip_str_seg 'i' ['p'] [qc] ("m".toList) PNSD _ (by decide) (by decide) (by decide)
    (by decide) (by decide) (pfx_false_head_ne ':' ',' _ _ (by decide))
    (pfx_false_append_head_ne 'i' ',' ['p'] _ _ (by decide))]
  rw [step_char _ ',' _ (by decide)]
  rw [skip_int_seg 'i' ['p'] [qc] ("v".toList) (intChars 1) _ (by decide) (by decide)
    (intChars_qfree 1) (by decide) (by decide)]
  rw [step_char _ ',' _ (by decide)]
  rw [skip_str_seg 'i' ['p'] [qc] ("cmd".toList) ("helo".toList) _ (by decide) (by decide)
    (by decide) (by decide) (by decide) (pfx_false_head_ne ':' ',' _ _ (by decide))
    (pfx_false_append_head_ne 'i' ',' ['p'] _ _ (by decide))]
  rw [step_char _ ',' _ (by decide)]
  rw [skip_str_seg 'i' ['p'] [qc] ("id".toList) self.id _ (by decide) (by decide)
    hqid (by decide) (by decide) (pfx_false_head_ne ':' ',' _ _ (by decide))
    (pfx_false_append_head_ne 'i' ',' ['p'] _ _ (by decide))]
  rw [step_char _ ',' _ (by decide)]
  rw [skip_str_seg 'i' ['p'] [qc] ("svc".toList) self.service _ (by decide) (by decide)
    hqsvc (by decide) (by decide) (pfx_false_head_ne ':' ',' _ _ (by decide))
    (pfx_false_append_head_ne 'i' ',' ['p'] _ _ (by decide))]
  rw [step_char _ ',' _ (by decide)]
  rw [show (qc :: ("ip".toList ++ qc :: ':' :: qc ::
        (local_ip ++ qc :: ',' :: wirePort self now)))
      = (qc :: (['i', 'p'] ++ qc :: ':' :: [qc]))
        ++ (local_ip ++ qc :: ',' :: wirePort self now) from rfl]
  rw [dropAfterFirst_self _ _ (by simp)]

/-- Locating the port value on the helo wire. -/
theorem wire_drop_port (self : PnService) (local_ip : List Char) (now : Int)
    (hqid : ∀ c ∈ self.id, c ≠ qc) (hqsvc : ∀ c ∈ self.service, c ≠ qc)
    (hqip : ∀ c ∈ local_ip, c ≠ qc) :
    dropAfterFirst (intKeyPat ("port".toList)) (heloWire self local_ip now)
      = some (intChars self.ctrl_port ++ ',' :: wireData self.data_port self.caps now) := by
  unfold heloWire wireV wireCmd wireId wireSvc wireIp wirePort
  rw [show intKeyPat ("port".toList)
      = qc :: (['p', 'o', 'r', 't'] ++ qc :: ':' :: ([] : List Char)) from rfl]
  rw [step_char _ lbrace _ (by decide)]
  rw [skip_str_seg 'p' ['o', 'r', 't'] [] ("m".toList) PNSD _ (by decide) (by decide)
    (by decide) (by decide) (by decide) (pfx_false_head_ne ':' ',' _ _ (by decide))
    (pfx_false_append_head_ne 'p' ',' ['o', 'r', 't'] _ _ (by decide))]
  rw [step_char _ ',' _ (by decide)]
  rw [skip_int_seg 'p' ['o', 'r', 't'] [] ("v".toList) (intChars 1) _ (by decide)
    (by decide) (intChars_qfree 1) (by decide) (by decide)]
  rw [step_char _ ',' _ (by decide)]
  rw [skip_str_seg 'p' ['o', 'r', 't'] [] ("cmd".toList) ("helo".toList) _ (by decide)
    (by decide) (by decide) (by decide) (by decide)
    (pfx_false_head_ne ':' ',' _ _ (by decide))
    (pfx_false_append_head_ne 'p' ',' ['o', 'r', 't'] _ _ (by decide))]
  rw [step_char _ ',' _ (by decide)]
  rw [skip_str_seg 'p' ['o', 'r', 't'] [] ("id".toList) self.id _ (by decide) (by decide)
    hqid (by decide) (by decide) (pfx_false_head_ne ':' ',' _ _ (by decide))
    (pfx_false_append_head_ne 'p' ',' ['o', 'r', 't'] _ _ (by decide))]
  rw [step_char _ ',' _ (by decide)]
  rw [skip_str_seg 'p' ['o', 'r', 't'] [] ("svc".toList) self.service _ (by decide)
    (by decide) hqsvc (by decide) (by decide)
    (pfx_false_head_ne ':' ',' _ _ (by decide))
    (pfx_false_append_head_ne 'p' ',' ['o', 'r', 't'] _ _ (by decide))]
  rw [step_char _ ',' _ (by decide)]
  rw [skip_str_seg 'p' ['o', 'r', 't'] [] ("ip".toList) local_ip _ (by decide) (by decide)
    hqip (by decide) (by decide) (pfx_false_head_ne ':' ',' _ _ (by decide))
    (pfx_false_append_head_ne 'p' ',' ['o', 'r', 't'] _ _ (by decide))]
  rw [step_char _ ',' _ (by decide)]
  rw [show (qc :: ("port".toList ++ qc :: ':' ::
        (intChars self.ctrl_port ++ ',' :: wireData self.data_port self.caps now)))
      = (qc :: (['p', 'o', 'r', 't'] ++ qc :: ':' :: ([] : List Char)))
        ++ (intChars self.ctrl_port ++ ',' :: wireData self.data_port self.caps now)
      from rfl]
  rw [dropAfterFirst_self _ _ (by simp)]

/-- Locating the data value on the helo wire when the data port is
    positive (hence present). -/
theorem wire_drop_data_pos (self : PnService) (local_ip : List Char) (now : Int)
    (hqid : ∀ c ∈ self.id, c ≠ qc) (hqsvc : ∀ c ∈ self.service, c ≠ qc)
    (hqip : ∀ c ∈ local_ip, c ≠ qc) (hdp : 0 < self.data_port) :
    dropAfterFirst (intKeyPat ("data".toList)) (heloWire self local_ip now)
      = some (intChars self.data_port ++ ',' :: wireCaps self.caps now) := by
  unfold heloWire wireV wireCmd wireId wireSvc wireIp wirePort
  rw [show intKeyPat ("data".toList)
      = qc :: (['d', 'a', 't', 'a'] ++ qc :: ':' :: ([] : List Char)) from rfl]
  rw [step_char _ lbrace _ (by decide)]
  rw [skip_str_seg 'd' ['a', 't', 'a'] [] ("m".toList) PNSD _ (by decide) (by decide)
    (by decide) (by decide) (by decide) (pfx_false_head_ne ':' ',' _ _ (by decide))
    (pfx_false_append_head_ne 'd' ',' ['a', 't', 'a'] _ _ (by decide))]
  rw [step_char _ ',' _ (by decide)]
  rw [skip_int_seg 'd' ['a', 't', 'a'] [] ("v".toList) (intChars 1) _ (by decide)
    (by decide) (intChars_qfree 1) (by decide) (by decide)]
  rw [step_char _ ',' _ (by decide)]
  rw [skip_str_seg 'd' ['a', 't', 'a'] [] ("cmd".toList) ("helo".toList) _ (by decide)
    (by decide) (by decide) (by decide) (by decide)
    (pfx_false_head_ne ':' ',' _ _ (by decide))
    (pfx_false_append_head_ne 'd' ',' ['a', 't', 'a'] _ _ (by decide))]
  rw [step_char _ ',' _ (by decide)]
  rw [skip_str_seg 'd' ['a', 't', 'a'] [] ("id".toList) self.id _ (by decide) (by decide)
    hqid (by decide) (by decide) (pfx_false_head_ne ':' ',' _ _ (by decide))
    (pfx_false_append_head_ne 'd' ',' ['a', 't', 'a'] _ _ (by decide))]
  rw [step_char _ ',' _ (by decide)]
  rw [skip_str_seg 'd' ['a', 't', 'a'] [] ("svc".toList) self.service _ (by decide)
    (by decide) hqsvc (by decide) (by decide)
    (pfx_false_head_ne ':' ',' _ _ (by decide))
    (pfx_false_append_head_ne 'd' ',' ['a', 't', 'a'] _ _ (by decide))]
  rw [step_char _ ',' _ (by decide)]
  rw [skip_str_seg 'd' ['a', 't', 'a'] [] ("ip".toList) local_ip _ (by decide) (by decide)
    hqip (by decide) (by decide) (pfx_false_head_ne ':' ',' _ _ (by decide))
    (pfx_false_append_head_ne 'd' ',' ['a', 't', 'a'] _ _ (by decide))]
  rw [step_char _ ',' _ (by decide)]
  rw [skip_int_seg 'd' ['a', 't', 'a'] [] ("port".toList) (intChars self.ctrl_port) _
    (by decide) (by decide) (intChars_qfree self.ctrl_port) (by decide) (by decide)]
  rw [step_char _ ',' _ (by decide)]
  rw [wireData, if_pos hdp]
  rw [show (qc :: ("data".toList ++ qc :: ':' ::
        (intChars self.data_port ++ ',' :: wireCaps self.caps now)))
      = (qc :: (['d', 'a', 't', 'a'] ++ qc :: ':' :: ([] : List Char)))
        ++ (intChars self.data_port ++ ',' :: wireCaps self.caps now) from rfl]
  rw [dropAfterFirst_self _ _ (by simp)]

/-- The data key is absent from the helo wire when the data port is not
    positive. -/
theorem wire_drop_data_none (self : PnService) (local_ip : List Char) (now : Int)
    (hqid : ∀ c ∈ self.id, c ≠ qc) (hqsvc : ∀ c ∈ self.service, c ≠ qc)
    (hqip : ∀ c ∈ local_ip, c ≠ qc) (hqcaps : ∀ c ∈ self.caps, c ≠ qc)
    (hdp : ¬0 < self.data_port) :
    dropAfterFirst (intKeyPat ("data".toList)) (heloWire self local_ip now) = none := by
  unfold heloWire wireV wireCmd wireId wireSvc wireIp wirePort
  rw [show intKeyPat ("data".toList)
      = qc :: (['d', 'a', 't', 'a'] ++ qc :: ':' :: ([] : List Char)) from rfl]
  rw [step_char _ lbrace _ (by decide)]
  rw [skip_str_seg 'd' ['a', 't', 'a'] [] ("m".toList) PNSD _ (by decide) (by decide)
    (by decide) (by decide) (by decide) (pfx_false_head_ne ':' ',' _ _ (by decide))
    (pfx_false_append_head_ne 'd' ',' ['a', 't', 'a'] _ _ (by decide))]
  rw [step_char _ ',' _ (by decide)]
  rw [skip_int_seg 'd' ['a', 't', 'a'] [] ("v".toList) (intChars 1) _ (by decide)
    (by decide) (intChars_qfree 1) (by decide) (by decide)]
  rw [step_char _ ',' _ (by decide)]
  rw [skip_str_seg 'd' ['a', 't', 'a'] [] ("cmd".toList) ("helo".toList) _ (by decide)
    (by decide) (by decide) (by decide) (by decide)
    (pfx_false_head_ne ':' ',' _ _ (by decide))
    (pfx_false_append_head_ne 'd' ',' ['a', 't', 'a'] _ _ (by decide))]
  rw [step_char _ ',' _ (by decide)]
  rw [skip_str_seg 'd' ['a', 't', 'a'] [] ("id".toList) self.id _ (by decide) (by decide)
    hqid (by decide) (by decide) (pfx_false_head_ne ':' ',' _ _ (by decide))
    (pfx_false_append_head_ne 'd' ',' ['a', 't', 'a'] _ _ (by decide))]
  rw [step_char _ ',' _ (by decide)]
  rw [skip_str_seg 'd' ['a', 't', 'a'] [] ("svc".toList) self.service _ (by decide)
    (by decide) hqsvc (by decide) (by decide)
    (pfx_false_head_ne ':' ',' _ _ (by decide))
    (pfx_false_append_head_ne 'd' ',' ['a', 't', 'a'] _ _ (by decide))]
  rw [step_char _ ',' _ (by decide)]
  rw [skip_str_seg 'd' ['a', 't', 'a'] [] ("ip".toList) local_ip _ (by decide) (by decide)
    hqip (by decide) (by decide) (pfx_false_head_ne ':' ',' _ _ (by decide))
    (pfx_false_append_head_ne 'd' ',' ['a', 't', 'a'] _ _ (by decide))]
  rw [step_char _ ',' _ (by decide)]
  rw [skip_int_seg 'd' ['a', 't', 'a'] [] ("port".toList) (intChars self.ctrl_port) _
    (by decide) (by decide) (intChars_qfree self.ctrl_port) (by decide) (by decide)]
  rw [step_char _ ',' _ (by decide)]
  rw [wireData, if_neg hdp]
  by_cases hcaps : self.caps = []
  · rw [wireCaps, if_pos hcaps, wireTs]
    rw [skip_int_seg 'd' ['a', 't', 'a'] [] ("ts".toList) (intChars now) _ (by decide)
      (by decide) (intChars_qfree now) (by decide) (by decide)]
    rw [step_char _ rbrace _ (by decide)]
    exact dropAfterFirst_nil _ (by simp)
  · rw [wireCaps, if_neg hcaps]
    rw [skip_str_seg 'd' ['a', 't', 'a'] [] ("caps".toList) self.caps _ (by decide)
      (by decide) hqcaps (by decide) (by decide)
      (pfx_false_head_ne ':' ',' _ _ (by decide))
      (pfx_false_append_head_ne 'd' ',' ['a', 't', 'a'] _ _ (by decide))]
    rw [step_char _ ',' _ (by decide), wireTs]
    rw [skip_int_seg 'd' ['a', 't', 'a'] [] ("ts".toList) (intChars now) _ (by decide)
      (by decide) (intChars_qfree now) (by decide) (by decide)]
    rw [step_char _ rbrace _ (by decide)]
    exact dropAfterFirst_nil _ (by simp)

/-- Locating the caps value on the helo wire when capabilities are
    non-empty (hence present). -/
theorem wire_drop_caps (self : PnService) (local_ip : List Char) (now : Int)
    (hqid : ∀ c ∈ self.id, c ≠ qc) (hqsvc : ∀ c ∈ self.service, c ≠ qc)
    (hqip : ∀ c ∈ local_ip, c ≠ qc) (hcaps : self.caps ≠ []) :
    dropAfterFirst (strKeyPat ("caps".toList)) (heloWire self local_ip now)
      = some (self.caps ++ qc :: ',' :: wireTs now) := by
  unfold heloWire wireV wireCmd wireId wireSvc wireIp wirePort
  rw [show strKeyPat ("caps".toList)
      = qc :: (['c', 'a', 'p', 's'] ++ qc :: ':' :: [qc]) from rfl]
  rw [step_char _ lbrace _ (by decide)]
  rw [skip_str_seg 'c' ['a', 'p', 's'] [qc] ("m".toList) PNSD _ (by decide) (by decide)
    (by decide) (by decide) (by decide) (pfx_false_head_ne ':' ',' _ _ (by decide))
    (pfx_false_append_head_ne 'c' ',' ['a', 'p', 's'] _ _ (by decide))]
  rw [step_char _ ',' _ (by decide)]
  rw [skip_int_seg 'c' ['a', 'p', 's'] [qc] ("v".toList) (intChars 1) _ (by decide)
    (by decide) (intChars_qfree 1) (by decide) (by decide)]
  rw [step_char _ ',' _ (by decide)]
  rw [skip_str_seg 'c' ['a', 'p', 's'] [qc] ("cmd".toList) ("helo".toList) _ (by decide)
    (by decide) (by decide) (by decide) (by decide)
    (pfx_false_head_ne ':' ',' _ _ (by decide))
    (pfx_false_append_head_ne 'c' ',' ['a', 'p', 's'] _ _ (by decide))]
  rw [step_char _ ',' _ (by decide)]
  rw [skip_str_seg 'c' ['a', 'p', 's'] [qc] ("id".toList) self.id _ (by decide)
    (by decide) hqid (by decide) (by decide)
    (pfx_false_head_ne ':' ',' _ _ (by decide))
    (pfx_false_append_head_ne 'c' ',' ['a', 'p', 's'] _ _ (by decide))]
  rw [step_char _ ',' _ (by decide)]
  rw [skip_str_seg 'c' ['a', 'p', 's'] [qc] ("svc".toList) self.service _ (by decide)
    (by decide) hqsvc (by decide) (by decide)
    (pfx_false_head_ne ':' ',' _ _ (by decide))
    (pfx_false_append_head_ne 'c' ',' ['a', 'p', 's'] _ _ (by decide))]
  rw [step_char _ ',' _ (by decide)]
  rw [skip_str_seg 'c' ['a', 'p', 's'] [qc] ("ip".toList) local_ip _ (by decide)
    (by decide) hqip (by decide) (by decide)
    (pfx_false_head_ne ':' ',' _ _ (by decide))
    (pfx_false_append_head_ne 'c' ',' ['a', 'p', 's'] _ _ (by decide))]
  rw [step_char _ ',' _ (by decide)]
  rw [skip_int_seg 'c' ['a', 'p', 's'] [qc] ("port".toList) (intChars self.ctrl_port) _
    (by decide) (by decide) (intChars_qfree self.ctrl_port) (by decide) (by decide)]
  rw [step_char _ ',' _ (by decide)]
  have hfound : dropAfterFirst (qc :: (['c', 'a', 'p', 's'] ++ qc :: ':' :: [qc]))
      (wireCaps self.caps now) = some (self.caps ++ qc :: ',' :: wireTs now) := by
    rw [wireCaps, if_neg hcaps]
    rw [show (qc :: ("caps".toList ++ qc :: ':' :: qc ::
          (self.caps ++ qc :: ',' :: wireTs now)))
        = (qc :: (['c', 'a', 'p', 's'] ++ qc :: ':' :: [qc]))
          ++ (self.caps ++ qc :: ',' :: wireTs now) from rfl]
    rw [dropAfterFirst_self _ _ (by simp)]
  by_cases hdp : 0 < self.data_port
  · rw [wireData, if_pos hdp]
    rw [skip_int_seg 'c' ['a', 'p', 's'] [qc] ("data".toList) (intChars self.data_port) _
      (by decide) (by decide) (intChars_qfree self.data_port) (by decide) (by decide)]
    rw [step_char _ ',' _ (by decide)]
    exact hfound
  · rw [wireData, if_neg hdp]
    exact hfound

/-- C4 amended: for every self descriptor whose string fields contain no
    double quote (the encoder performs no escaping) and fit the struct
    capacities, whose numeric fields fit in ten decimal digits, and whose
    data port is non-negative, encoding a presence message with
    build_helo_message succeeds, and decoding the produced bytes recovers
    the identity, service-type, ip, control port and data port exactly (a
    zero data port is omitted on the wire and decodes back to 0); the
    capabilities round-trip whenever they are non-empty — an empty
    capabilities string is omitted on the wire by design. -/
theorem helo_roundtrip (self : PnService) (local_ip : List Char) (now : Int)
    (hqid : ∀ c ∈ self.id, c ≠ qc) (hqsvc : ∀ c ∈ self.service, c ≠ qc)
    (hqip : ∀ c ∈ local_ip, c ≠ qc) (hqcaps : ∀ c ∈ self.caps, c ≠ qc)
    (hlid : self.id.length ≤ 63) (hlsvc : self.service.length ≤ 31)
    (hlip : local_ip.length ≤ 63) (hlcaps : self.caps.length ≤ 127)
    (hdata : 0 ≤ self.data_port)
    (hcb : self.ctrl_port.natAbs < 10 ^ 10) (hdb : self.data_port.natAbs < 10 ^ 10)
    (hnb : now.natAbs < 10 ^ 10) :
    ∃ wire, build_helo_message self local_ip now 1024 = some wire ∧
      json_get_string wire ("id".toList) PN_MAX_ID_LEN = some self.id ∧
      json_get_string wire ("svc".toList) PN_MAX_SERVICE_LEN = some self.service ∧
      json_get_string wire ("ip".toList) PN_MAX_IP_LEN = some local_ip ∧
      json_get_int wire ("port".toList) = self.ctrl_port ∧
      json_get_int wire ("data".toList) = self.data_port ∧
      (self.caps ≠ [] →
        json_get_string wire ("caps".toList) PN_MAX_CAPS_LEN = some self.caps) := by
  refine ⟨heloWire self local_ip now,
    build_helo_eq self local_ip now hlid hlsvc hlip hlcaps hcb hdb hnb,
    ?_, ?_, ?_, ?_, ?_, ?_⟩
  · exact json_get_string_of_drop _ _ _ _ _ (wire_drop_id self local_ip now) hqid
      (by simpa [PN_MAX_ID_LEN] using hlid)
  · exact json_get_string_of_drop _ _ _ _ _ (wire_drop_svc self local_ip now hqid) hqsvc
      (by simpa [PN_MAX_SERVICE_LEN] using hlsvc)
  · exact json_get_string_of_drop _ _ _ _ _ (wire_drop_ip self local_ip now hqid hqsvc)
      hqip (by simpa [PN_MAX_IP_LEN] using hlip)
  · exact json_get_int_of_drop _ _ _ ',' _
      (wire_drop_port self local_ip now hqid hqsvc hqip) (by decide)
  · by_cases hdp : 0 < self.data_port
    · exact json_get_int_of_drop _ _ _ ',' _
        (wire_drop_data_pos self local_ip now hqid hqsvc hqip hdp) (by decide)
    · rw [json_get_int_none _ _
        (wire_drop_data_none self local_ip now hqid hqsvc hqip hqcaps hdp)]
      omega
  · intro hc
    exact json_get_string_of_drop _ _ _ _ _
      (wire_drop_caps self local_ip now hqid hqsvc hqip hc) hqcaps
      (by simpa [PN_MAX_CAPS_LEN] using hlcaps)

/-- Witness for helo_roundtrip: a concrete descriptor with all fields
    populated. -/
theorem helo_roundtrip_witness :
    (∀ c ∈ "A1".toList, c ≠ qc) ∧
    ∃ wire, build_helo_message
        { id := "A1".toList, service := "sdr".toList, ip := "x".toList,
          ctrl_port := 4535, data_port := 4536, caps := "c1".toList,
          last_seen := 0, active := true } ("1.2.3.4".toList) 7 1024 = some wire ∧
      json_get_string wire ("id".toList) PN_MAX_ID_LEN = some ("A1".toList) ∧
      json_get_string wire ("svc".toList) PN_MAX_SERVICE_LEN = some ("sdr".toList) ∧
      json_get_string wire ("ip".toList) PN_MAX_IP_LEN = some ("1.2.3.4".toList) ∧
      json_get_int wire ("port".toList) = 4535 ∧
      json_get_int wire ("data".toList) = 4536 ∧
      ("c1".toList ≠ ([] : List Char) →
        json_get_string wire ("caps".toList) PN_MAX_CAPS_LEN = some ("c1".toList)) :=
  ⟨by decide,
    helo_roundtrip
      { id := "A1".toList, service := "sdr".toList, ip := "x".toList,
        ctrl_port := 4535, data_port := 4536, caps := "c1".toList,
        last_seen := 0, active := true } ("1.2.3.4".toList) 7
      (by decide) (by decide) (by decide) (by decide) (by decide) (by decide)
      (by decide) (by decide) (by decide) (by decide) (by decide) (by decide)⟩

end PnDiscovery
